import Mathlib

/-!
Verification development for the treemap SLAM back end (tmTreemap.h).

The tree is modelled as an index-addressed arena: a list of optional node
records, where a node points to its parent by index.  Machine pointers
become optional indices; bit masks on the node status word become natural
numbers combined with bitwise operations.  Functions implemented inline in
the header (getNode, TmNode::resetFlagUpToRoot) are translated directly;
operations whose bodies live outside the header are modelled from the
specification and are marked as such in their doc comments.
-/

namespace Treemap

/-- Status flag bit mask of TmNode: the feature-passed list of the node is
valid.  The numeric values of the masks are not fixed by the header; any
assignment to distinct bits is faithful. -/
def IS_FEATURE_PASSED_VALID : Nat := 1

/-- Status flag bit mask of TmNode: the aggregated Gaussian of the node is
valid. -/
def IS_GAUSSIAN_VALID : Nat := 2

/-- Status flag bit mask of TmNode: the node has passed through the
optimizer. -/
def IS_OPTIMIZED : Nat := 4

/-- Status flag bit mask of TmNode: the node may be relocated by the
optimizer. -/
def CAN_BE_MOVED : Nat := 8

/-- Status flag bit mask of TmNode: skip this node during estimate
propagation. -/
def DONT_UPDATE_ESTIMATE : Nat := 16

/-- Arena record for one tree node, carrying exactly the fields that the
inline code of the header reads: the status bit set and the parent link. -/
structure TmNodeRec where
  status : Nat
  parent : Option Nat
deriving DecidableEq, Repr

/-- State of a TmTreemap as far as the inline header code observes it:
the node arena (slots may be empty after a node was freed), the root index
and the estimate-valid bit. -/
structure TmTreemapSt where
  node : List (Option TmNodeRec)
  root : Option Nat
  isEstimateValid : Bool
deriving DecidableEq, Repr

/-- Reading arena slot i; indices outside the arena read as empty. -/
def lookupNode (ns : List (Option TmNodeRec)) (i : Nat) : Option TmNodeRec :=
  ns.getD i none

/-- TmTreemap::getNode: bounds-checked access by a signed index, returning
NULL for every index outside the range of the node vector. -/
def getNode (st : TmTreemapSt) (index : Int) : Option TmNodeRec :=
  if 0 ≤ index ∧ index < (st.node.length : Int) then
    st.node.getD index.toNat none
  else none

/-- Clearing the bits of flag in the status word of a record:
status &= ~flag. -/
def clearStatus (r : TmNodeRec) (flag : Nat) : TmNodeRec :=
  { r with status := r.status.ldiff flag }

/-- Overwriting arena slot i with a record. -/
def setNodeAt (ns : List (Option TmNodeRec)) (i : Nat) (r : TmNodeRec) :
    List (Option TmNodeRec) :=
  ns.set i (some r)

/-- The while loop of TmNode::resetFlagUpToRoot: walk the parent chain,
clearing flag while it is set, stopping at the first node where it is
already clear or at the top of the tree.  The C++ loop follows raw
pointers; here the walk carries explicit fuel, which the wrapper
instantiates with the arena size (enough for every acyclic chain). -/
def resetLoop : Nat → List (Option TmNodeRec) → Nat → Option Nat →
    List (Option TmNodeRec)
  | 0, ns, _, _ => ns
  | _ + 1, ns, _, none => ns
  | fuel + 1, ns, flag, some i =>
    match lookupNode ns i with
    | none => ns
    | some r =>
      if r.status &&& flag ≠ 0 then
        resetLoop fuel (setNodeAt ns i (clearStatus r flag)) flag r.parent
      else ns

/-- TmNode::resetFlagUpToRoot, acting on the treemap state, started at the
node with index i: run the clearing walk, then, when the mask contains
IS_GAUSSIAN_VALID, unconditionally mark the owning treemap estimate as
stale. -/
def resetFlagUpToRoot (st : TmTreemapSt) (i : Nat) (flag : Nat) :
    TmTreemapSt :=
  { node := resetLoop st.node.length st.node flag (some i)
    root := st.root
    isEstimateValid :=
      if flag &&& IS_GAUSSIAN_VALID ≠ 0 then false else st.isEstimateValid }

/-- The list of node indices that the clearing walk modifies, mirrored on
the recursion of resetLoop. -/
def clearedChain : Nat → List (Option TmNodeRec) → Nat → Option Nat →
    List Nat
  | 0, _, _, _ => []
  | _ + 1, _, _, none => []
  | fuel + 1, ns, flag, some i =>
    match lookupNode ns i with
    | none => []
    | some r =>
      if r.status &&& flag ≠ 0 then
        i :: clearedChain fuel (setNodeAt ns i (clearStatus r flag)) flag
          r.parent
      else []

/-- The ancestor chain of a node: the node itself followed by its
ancestors, read from a fixed arena, truncated by fuel. -/
def ancestorChain : Nat → List (Option TmNodeRec) → Option Nat → List Nat
  | 0, _, _ => []
  | _ + 1, _, none => []
  | fuel + 1, ns, some i =>
    match lookupNode ns i with
    | none => []
    | some r => i :: ancestorChain fuel ns r.parent

/-- Whether the bits of flag are set in the status of arena slot i. -/
def flagSetAt (ns : List (Option TmNodeRec)) (flag : Nat) (i : Nat) : Bool :=
  match lookupNode ns i with
  | none => false
  | some r => r.status &&& flag ≠ 0

/-- A concrete three node arena forming the chain 0 → 1 → 2, used as a
witness input: node 0 has both validity flags set, node 1 only
IS_GAUSSIAN_VALID, node 2 only IS_FEATURE_PASSED_VALID. -/
def exChainSt : TmTreemapSt :=
  { node := [some ⟨3, some 1⟩, some ⟨2, some 2⟩, some ⟨1, none⟩]
    root := some 2
    isEstimateValid := true }

theorem lookupNode_eq (ns : List (Option TmNodeRec)) (i : Nat) :
    lookupNode ns i = (ns[i]?).getD none := by
  simp [lookupNode, List.getD_eq_getElem?_getD]

theorem lookupNode_some_lt {ns : List (Option TmNodeRec)} {i : Nat}
    {r : TmNodeRec} (h : lookupNode ns i = some r) : i < ns.length := by
  rw [lookupNode_eq] at h
  cases hg : ns[i]? with
  | none => rw [hg] at h; simp at h
  | some o => rw [List.getElem?_eq_some] at hg; exact hg.1

theorem lookupNode_set_self {ns : List (Option TmNodeRec)} {i : Nat}
    (r : TmNodeRec) (h : i < ns.length) :
    lookupNode (setNodeAt ns i r) i = some r := by
  simp [lookupNode_eq, setNodeAt, List.getElem?_set_self h]

theorem lookupNode_set_ne {ns : List (Option TmNodeRec)} {i j : Nat}
    (r : TmNodeRec) (h : i ≠ j) :
    lookupNode (setNodeAt ns i r) j = lookupNode ns j := by
  simp [lookupNode_eq, setNodeAt, List.getElem?_set_ne h]

theorem ldiff_ldiff_self (s f : Nat) :
    Nat.ldiff (Nat.ldiff s f) f = Nat.ldiff s f := by
  apply Nat.eq_of_testBit_eq
  intro k
  rw [Nat.testBit_ldiff, Nat.testBit_ldiff]
  cases hb : f.testBit k <;> simp

theorem clearStatus_idem (r : TmNodeRec) (flag : Nat) :
    clearStatus (clearStatus r flag) flag = clearStatus r flag := by
  cases r
  simp [clearStatus, ldiff_ldiff_self]

theorem clearStatus_land (r : TmNodeRec) (flag : Nat) :
    (clearStatus r flag).status &&& flag = 0 := by
  apply Nat.eq_of_testBit_eq
  intro k
  rw [Nat.testBit_and, Nat.zero_testBit]
  show ((Nat.ldiff r.status flag).testBit k && flag.testBit k) = false
  rw [Nat.testBit_ldiff]
  cases hb : flag.testBit k <;> simp

theorem resetLoop_length (fuel : Nat) (ns : List (Option TmNodeRec))
    (flag : Nat) (oi : Option Nat) :
    (resetLoop fuel ns flag oi).length = ns.length := by
  induction fuel generalizing ns oi with
  | zero => rfl
  | succ fuel ih =>
    cases oi with
    | none => rfl
    | some i =>
      cases h : lookupNode ns i with
      | none => simp [resetLoop, h]
      | some r =>
        by_cases hf : r.status &&& flag ≠ 0
        · simp only [resetLoop, h, if_pos hf]
          rw [ih]
          simp [setNodeAt]
        · simp [resetLoop, h, hf]

/-- Pointwise characterization of the clearing walk: arena slot j is
rewritten with flag cleared exactly when j is one of the visited indices,
and is untouched otherwise. -/
theorem resetLoop_lookup (fuel : Nat) (ns : List (Option TmNodeRec))
    (flag : Nat) (oi : Option Nat) (j : Nat) :
    lookupNode (resetLoop fuel ns flag oi) j =
      if j ∈ clearedChain fuel ns flag oi then
        (lookupNode ns j).map (fun r => clearStatus r flag)
      else lookupNode ns j := by
  induction fuel generalizing ns oi with
  | zero => simp [resetLoop, clearedChain]
  | succ fuel ih =>
    cases oi with
    | none => simp [resetLoop, clearedChain]
    | some i =>
      cases h : lookupNode ns i with
      | none => simp [resetLoop, clearedChain, h]
      | some r =>
        by_cases hf : r.status &&& flag ≠ 0
        · simp only [resetLoop, clearedChain, h, if_pos hf]
          by_cases hj : j = i
          · subst hj
            rw [ih]
            rw [lookupNode_set_self _ (lookupNode_some_lt h)]
            by_cases hm : j ∈ clearedChain fuel
                (setNodeAt ns j (clearStatus r flag)) flag r.parent
            · simp [hm, h, clearStatus_idem]
            · simp [hm, h]
          · rw [ih, lookupNode_set_ne _ (Ne.symm hj)]
            simp [List.mem_cons, hj]
        · simp [resetLoop, clearedChain, h, hf]

/-- If the walk is started at a node on which flag is already clear, the
arena is returned unchanged. -/
theorem resetLoop_start_clear (fuel : Nat) (ns : List (Option TmNodeRec))
    (flag : Nat) (i : Nat) (h : flagSetAt ns flag i = false) :
    resetLoop fuel ns flag (some i) = ns := by
  cases fuel with
  | zero => rfl
  | succ fuel =>
    cases hl : lookupNode ns i with
    | none => simp [resetLoop, hl]
    | some r =>
      have hr : ¬ r.status &&& flag ≠ 0 := by
        simpa [flagSetAt, hl] using h
      simp [resetLoop, hl, hr]

theorem takeWhile_congr {l : List Nat} {p q : Nat → Bool}
    (h : ∀ x ∈ l, p x = q x) : l.takeWhile p = l.takeWhile q := by
  induction l with
  | nil => rfl
  | cons a t ih =>
    rw [List.takeWhile_cons, List.takeWhile_cons,
      h a (List.mem_cons_self a t)]
    cases q a with
    | false => rfl
    | true => simp only [ih fun x hx => h x (List.mem_cons_of_mem a hx)]

/-- Clearing status bits of one existing slot does not change any ancestor
chain, because parent links and slot occupancy are unaffected. -/
theorem ancestorChain_set_clear (fuel : Nat) (ns : List (Option TmNodeRec))
    (i : Nat) (r : TmNodeRec) (flag : Nat) (h : lookupNode ns i = some r)
    (oi : Option Nat) :
    ancestorChain fuel (setNodeAt ns i (clearStatus r flag)) oi =
      ancestorChain fuel ns oi := by
  induction fuel generalizing oi with
  | zero => rfl
  | succ fuel ih =>
    cases oi with
    | none => rfl
    | some j =>
      by_cases hj : j = i
      · subst hj
        rw [show ancestorChain (fuel + 1) (setNodeAt ns j (clearStatus r flag))
              (some j) = j :: ancestorChain fuel
                (setNodeAt ns j (clearStatus r flag)) r.parent by
            simp [ancestorChain,
              lookupNode_set_self _ (lookupNode_some_lt h), clearStatus]]
        rw [show ancestorChain (fuel + 1) ns (some j) =
              j :: ancestorChain fuel ns r.parent by
            simp [ancestorChain, h]]
        rw [ih]
      · have hne := @lookupNode_set_ne ns _ _ (clearStatus r flag)
          (Ne.symm hj)
        cases hl : lookupNode ns j with
        | none => simp [ancestorChain, hne, hl]
        | some rj => simp only [ancestorChain, hne, hl, ih]

/-- On an acyclic ancestor chain, the set of indices the clearing walk
modifies is exactly the maximal prefix of the chain on which flag is set. -/
theorem clearedChain_eq_takeWhile (fuel : Nat) (ns : List (Option TmNodeRec))
    (flag : Nat) (oi : Option Nat)
    (hnd : (ancestorChain fuel ns oi).Nodup) :
    clearedChain fuel ns flag oi =
      (ancestorChain fuel ns oi).takeWhile (fun x => flagSetAt ns flag x) := by
  induction fuel generalizing ns oi with
  | zero => rfl
  | succ fuel ih =>
    cases oi with
    | none => rfl
    | some i =>
      cases h : lookupNode ns i with
      | none => simp [clearedChain, ancestorChain, h]
      | some r =>
        by_cases hf : r.status &&& flag ≠ 0
        · have hpred : flagSetAt ns flag i = true := by
            simp [flagSetAt, h, hf]
          have hchain : ancestorChain (fuel + 1) ns (some i) =
              i :: ancestorChain fuel ns r.parent := by
            simp [ancestorChain, h]
          rw [hchain] at hnd
          have hnotmem : i ∉ ancestorChain fuel ns r.parent :=
            List.Nodup.not_mem hnd
          have hnd2 : (ancestorChain fuel
              (setNodeAt ns i (clearStatus r flag)) r.parent).Nodup := by
            rw [ancestorChain_set_clear fuel ns i r flag h]
            exact List.Nodup.of_cons hnd
          simp only [clearedChain, h, if_pos hf, hchain,
            List.takeWhile_cons, hpred, if_true]
          rw [ih _ _ hnd2, ancestorChain_set_clear fuel ns i r flag h]
          have hcong : ∀ x ∈ ancestorChain fuel ns r.parent,
              flagSetAt (setNodeAt ns i (clearStatus r flag)) flag x =
                flagSetAt ns flag x := by
            intro x hx
            have hxi : i ≠ x := fun he => hnotmem (he ▸ hx)
            simp [flagSetAt, lookupNode_set_ne _ hxi]
          rw [takeWhile_congr hcong]
        · have hpred : flagSetAt ns flag i = false := by
            simp only [flagSetAt, h]
            simpa using hf
          simp [clearedChain, ancestorChain, h, hf, hpred]

/-- The monotone-flag invariant in local form: a node whose flag is clear
never has a parent whose flag is set. -/
def InvLocal (ns : List (Option TmNodeRec)) (flag : Nat) : Prop :=
  ∀ i r p rp, lookupNode ns i = some r → r.status &&& flag = 0 →
    r.parent = some p → lookupNode ns p = some rp →
    rp.status &&& flag = 0

/-- Status word stored at slot i, with empty slots reading as zero. -/
def statusAt (ns : List (Option TmNodeRec)) (i : Nat) : Nat :=
  match lookupNode ns i with
  | none => 0
  | some r => r.status

/-- Parent link stored at slot i, with empty slots reading as none. -/
def parentAt (ns : List (Option TmNodeRec)) (i : Nat) : Option Nat :=
  match lookupNode ns i with
  | none => none
  | some r => r.parent

/-- Decidable check of the local monotone-flag invariant over the whole
arena. -/
def invLocalB (ns : List (Option TmNodeRec)) (flag : Nat) : Bool :=
  decide (∀ i ∈ List.range ns.length, ∀ p ∈ List.range ns.length,
    statusAt ns i &&& flag = 0 → parentAt ns i = some p →
    statusAt ns p &&& flag = 0)

theorem invLocalB_spec {ns : List (Option TmNodeRec)} {flag : Nat}
    (h : invLocalB ns flag = true) : InvLocal ns flag := by
  intro i r p rp hl hc hp hlp
  have hi : i < ns.length := lookupNode_some_lt hl
  have hpl : p < ns.length := lookupNode_some_lt hlp
  have h' := of_decide_eq_true h
  have hres := h' i (List.mem_range.mpr hi) p (List.mem_range.mpr hpl)
    (by simpa [statusAt, hl] using hc) (by simp [parentAt, hl, hp])
  simpa [statusAt, hlp] using hres

/-- The parent walk from a starting slot terminates within the given fuel:
every chain either reaches a node without parent or leaves the arena. -/
def chainFitsB : Nat → List (Option TmNodeRec) → Option Nat → Bool
  | _, _, none => true
  | 0, ns, some i => (lookupNode ns i).isNone
  | fuel + 1, ns, some i =>
    match lookupNode ns i with
    | none => true
    | some r => chainFitsB fuel ns r.parent

theorem chainFitsB_set_clear (fuel : Nat) (ns : List (Option TmNodeRec))
    (i : Nat) (r : TmNodeRec) (flag : Nat) (h : lookupNode ns i = some r)
    (oi : Option Nat) :
    chainFitsB fuel (setNodeAt ns i (clearStatus r flag)) oi =
      chainFitsB fuel ns oi := by
  induction fuel generalizing oi with
  | zero =>
    cases oi with
    | none => rfl
    | some j =>
      by_cases hj : j = i
      · subst hj
        rw [show chainFitsB 0 (setNodeAt ns j (clearStatus r flag)) (some j) =
              (lookupNode (setNodeAt ns j (clearStatus r flag)) j).isNone
            from rfl]
        rw [lookupNode_set_self _ (lookupNode_some_lt h),
          show chainFitsB 0 ns (some j) = (lookupNode ns j).isNone from rfl, h]
        rfl
      · rw [show chainFitsB 0 (setNodeAt ns i (clearStatus r flag)) (some j) =
              (lookupNode (setNodeAt ns i (clearStatus r flag)) j).isNone
            from rfl]
        rw [lookupNode_set_ne _ (Ne.symm hj)]
        rfl
  | succ fuel ih =>
    cases oi with
    | none => rfl
    | some j =>
      by_cases hj : j = i
      · subst hj
        rw [show chainFitsB (fuel + 1) (setNodeAt ns j (clearStatus r flag))
              (some j) = chainFitsB fuel
                (setNodeAt ns j (clearStatus r flag)) r.parent by
            simp [chainFitsB,
              lookupNode_set_self _ (lookupNode_some_lt h), clearStatus]]
        rw [show chainFitsB (fuel + 1) ns (some j) =
              chainFitsB fuel ns r.parent by simp [chainFitsB, h]]
        exact ih r.parent
      · have hne := @lookupNode_set_ne ns _ _ (clearStatus r flag)
          (Ne.symm hj)
        cases hl : lookupNode ns j with
        | none => simp [chainFitsB, hne, hl]
        | some rj => simp only [chainFitsB, hne, hl, ih]

/-- The local invariant, weakened to tolerate one frontier violation: a
clear node with a still-flagged parent is allowed only when the walk is
currently standing on that parent. -/
def AlmostInv (ns : List (Option TmNodeRec)) (flag : Nat)
    (oi : Option Nat) : Prop :=
  ∀ i r p rp, lookupNode ns i = some r → r.status &&& flag = 0 →
    r.parent = some p → lookupNode ns p = some rp →
    rp.status &&& flag = 0 ∨ oi = some p

/-- Core preservation lemma: a clearing walk started anywhere on an arena
satisfying the almost-invariant leaves the arena satisfying the full local
invariant, provided the parent chain terminates within the fuel. -/
theorem resetLoop_almostInv (fuel : Nat) (ns : List (Option TmNodeRec))
    (flag : Nat) (oi : Option Nat)
    (hA : AlmostInv ns flag oi) (hfit : chainFitsB fuel ns oi = true) :
    InvLocal (resetLoop fuel ns flag oi) flag := by
  induction fuel generalizing ns oi with
  | zero =>
    cases oi with
    | none =>
      intro x rx p rp hx hc hp hlp
      rcases hA x rx p rp hx hc hp hlp with h | h
      · exact h
      · exact absurd h (by simp)
    | some i =>
      have hnone : lookupNode ns i = none := by
        have : (lookupNode ns i).isNone = true := hfit
        cases hl : lookupNode ns i with
        | none => rfl
        | some r => rw [hl] at this; simp at this
      simp only [resetLoop]
      intro x rx p rp hx hc hp hlp
      rcases hA x rx p rp hx hc hp hlp with h | h
      · exact h
      · have hpi : i = p := Option.some_inj.mp h
        rw [← hpi, hnone] at hlp
        exact absurd hlp (by simp)
  | succ fuel ih =>
    cases oi with
    | none =>
      intro x rx p rp hx hc hp hlp
      rcases hA x rx p rp hx hc hp hlp with h | h
      · exact h
      · exact absurd h (by simp)
    | some i =>
      cases hl : lookupNode ns i with
      | none =>
        rw [show resetLoop (fuel + 1) ns flag (some i) = ns by
          simp [resetLoop, hl]]
        intro x rx p rp hx hc hp hlp
        rcases hA x rx p rp hx hc hp hlp with h | h
        · exact h
        · have hpi : i = p := Option.some_inj.mp h
          rw [← hpi, hl] at hlp
          exact absurd hlp (by simp)
      | some r =>
        by_cases hf : r.status &&& flag ≠ 0
        · rw [show resetLoop (fuel + 1) ns flag (some i) =
              resetLoop fuel (setNodeAt ns i (clearStatus r flag)) flag
                r.parent by simp [resetLoop, hl, hf]]
          apply ih
          · intro x rx p rp hx hc hp hlp
            by_cases hx_i : x = i
            · subst hx_i
              rw [lookupNode_set_self _ (lookupNode_some_lt hl)] at hx
              right
              rw [← hp, ← Option.some_inj.mp hx]
              rfl
            · rw [lookupNode_set_ne _ (Ne.symm hx_i)] at hx
              by_cases hp_i : p = i
              · subst hp_i
                rw [lookupNode_set_self _ (lookupNode_some_lt hl)] at hlp
                left
                rw [← Option.some_inj.mp hlp]
                exact clearStatus_land r flag
              · rw [lookupNode_set_ne _ (Ne.symm hp_i)] at hlp
                rcases hA x rx p rp hx hc hp hlp with h | h
                · exact Or.inl h
                · exact absurd (Option.some_inj.mp h) fun he => hp_i he.symm
          · rw [chainFitsB_set_clear fuel ns i r flag hl]
            have : chainFitsB (fuel + 1) ns (some i) =
                chainFitsB fuel ns r.parent := by simp [chainFitsB, hl]
            rw [← this]
            exact hfit
        · rw [show resetLoop (fuel + 1) ns flag (some i) = ns by
            simp [resetLoop, hl, hf]]
          have hr0 : r.status &&& flag = 0 := by simpa using hf
          intro x rx p rp hx hc hp hlp
          rcases hA x rx p rp hx hc hp hlp with h | h
          · exact h
          · have hpi : p = i := Option.some_inj.mp h.symm
            rw [hpi, hl] at hlp
            rw [← Option.some_inj.mp hlp]
            exact hr0

/-- The monotone-flag invariant in the form of the claim: a node whose
flag is clear has the flag clear on every ancestor up to the root. -/
def FlagMonotone (ns : List (Option TmNodeRec)) (flag : Nat) : Prop :=
  ∀ j r, lookupNode ns j = some r → r.status &&& flag = 0 →
    ∀ k ∈ ancestorChain ns.length ns r.parent, flagSetAt ns flag k = false

/-- The local invariant entails flag clearness along the whole ancestor
chain. -/
theorem invLocal_ancestors {ns : List (Option TmNodeRec)} {flag : Nat}
    (h : InvLocal ns flag) (fuel : Nat) :
    ∀ i r, lookupNode ns i = some r → r.status &&& flag = 0 →
      ∀ j ∈ ancestorChain fuel ns r.parent, flagSetAt ns flag j = false := by
  induction fuel with
  | zero =>
    intro i r _ _ j hj
    simp [ancestorChain] at hj
  | succ fuel ih =>
    intro i r hl hc j hj
    cases hp : r.parent with
    | none => rw [hp] at hj; simp [ancestorChain] at hj
    | some p =>
      rw [hp] at hj
      cases hlp : lookupNode ns p with
      | none => simp [ancestorChain, hlp] at hj
      | some rp =>
        have hrp : rp.status &&& flag = 0 := h i r p rp hl hc hp hlp
        rw [show ancestorChain (fuel + 1) ns (some p) =
            p :: ancestorChain fuel ns rp.parent by
          simp [ancestorChain, hlp]] at hj
        rcases List.mem_cons.mp hj with hj | hj
        · subst hj
          simp [flagSetAt, hlp, hrp]
        · exact ih p rp hlp hrp j hj

/-- C3: the monotone-flag invariant — a clear IS_FEATURE_PASSED_VALID or
IS_GAUSSIAN_VALID flag on a node forces the flag clear on every ancestor
up to the root — is preserved by resetFlagUpToRoot, the one primitive of
the header that clears flags, for any flag mask. -/
theorem resetFlagUpToRoot_preserves_flag_monotone (st : TmTreemapSt)
    (i flag : Nat) (hInv : invLocalB st.node flag = true)
    (hfit : chainFitsB st.node.length st.node (some i) = true) :
    FlagMonotone (resetFlagUpToRoot st i flag).node flag := by
  have hIL : InvLocal (resetFlagUpToRoot st i flag).node flag := by
    apply resetLoop_almostInv
    · intro x rx p rp hx hc hp hlp
      exact Or.inl (invLocalB_spec hInv x rx p rp hx hc hp hlp)
    · exact hfit
  intro j r hl hc
  exact invLocal_ancestors hIL _ j r hl hc

/-- Witness for C3: on the concrete chain, whose IS_GAUSSIAN_VALID flags
satisfy the invariant, the invariant still holds after clearing from
node 0. -/
theorem resetFlagUpToRoot_preserves_flag_monotone_witness :
    invLocalB exChainSt.node IS_GAUSSIAN_VALID = true ∧
    chainFitsB exChainSt.node.length exChainSt.node (some 0) = true ∧
    FlagMonotone (resetFlagUpToRoot exChainSt 0 IS_GAUSSIAN_VALID).node
      IS_GAUSSIAN_VALID :=
  ⟨by decide, by decide,
   resetFlagUpToRoot_preserves_flag_monotone exChainSt 0 IS_GAUSSIAN_VALID
     (by decide) (by decide)⟩

/-- C4: resetFlagUpToRoot clears flag on the starting node and on each
successive ancestor exactly as long as the flag is set, stopping at the
first ancestor whose flag is already clear and leaving every other arena
slot unchanged; and whenever the mask includes IS_GAUSSIAN_VALID the
owning treemap estimate-stale bit is set. -/
theorem resetFlagUpToRoot_clears_flagged_front (st : TmTreemapSt)
    (i flag : Nat)
    (hnd : (ancestorChain st.node.length st.node (some i)).Nodup) :
    (∀ j : Nat,
      lookupNode (resetFlagUpToRoot st i flag).node j =
        if j ∈ (ancestorChain st.node.length st.node (some i)).takeWhile
            (fun x => flagSetAt st.node flag x) then
          (lookupNode st.node j).map (fun r => clearStatus r flag)
        else lookupNode st.node j) ∧
    (resetFlagUpToRoot st i flag).isEstimateValid =
      (if flag &&& IS_GAUSSIAN_VALID ≠ 0 then false else st.isEstimateValid) := by
  refine ⟨fun j => ?_, rfl⟩
  show lookupNode (resetLoop st.node.length st.node flag (some i)) j = _
  rw [resetLoop_lookup, clearedChain_eq_takeWhile _ _ _ _ hnd]

/-- Witness for C4 on the concrete chain 0 → 1 → 2 with the
IS_GAUSSIAN_VALID mask: nodes 0 and 1 are cleared, node 2 is untouched,
and the estimate is marked stale. -/
theorem resetFlagUpToRoot_clears_flagged_front_witness :
    (ancestorChain exChainSt.node.length exChainSt.node (some 0)).Nodup ∧
    (lookupNode (resetFlagUpToRoot exChainSt 0 IS_GAUSSIAN_VALID).node 1 =
      if 1 ∈ (ancestorChain exChainSt.node.length exChainSt.node
          (some 0)).takeWhile
          (fun x => flagSetAt exChainSt.node IS_GAUSSIAN_VALID x) then
        (lookupNode exChainSt.node 1).map
          (fun r => clearStatus r IS_GAUSSIAN_VALID)
      else lookupNode exChainSt.node 1) ∧
    (resetFlagUpToRoot exChainSt 0 IS_GAUSSIAN_VALID).isEstimateValid =
      (if IS_GAUSSIAN_VALID &&& IS_GAUSSIAN_VALID ≠ 0 then false
       else exChainSt.isEstimateValid) :=
  ⟨by decide,
   (resetFlagUpToRoot_clears_flagged_front exChainSt 0 IS_GAUSSIAN_VALID
      (by decide)).1 1,
   (resetFlagUpToRoot_clears_flagged_front exChainSt 0 IS_GAUSSIAN_VALID
      (by decide)).2⟩

/-- C9: getNode is total at the public interface: every signed index
outside the bounds of the node vector yields NULL, and an index inside the
bounds yields the stored slot, which may itself be empty for a freed
index. -/
theorem getNode_total_bounds (st : TmTreemapSt) (index : Int) :
    (¬ (0 ≤ index ∧ index < (st.node.length : Int)) →
      getNode st index = none) ∧
    ((0 ≤ index ∧ index < (st.node.length : Int)) →
      getNode st index = st.node.getD index.toNat none) := by
  constructor <;> intro h <;> simp [getNode, h]

/-- Witness for C9 on the concrete arena: a negative index and a too-large
index read as NULL, an in-range index reads the stored slot. -/
theorem getNode_total_bounds_witness :
    getNode exChainSt (-1) = none ∧ getNode exChainSt 7 = none ∧
    getNode exChainSt 2 = exChainSt.node.getD 2 none :=
  ⟨(getNode_total_bounds exChainSt (-1)).1 (by decide),
   (getNode_total_bounds exChainSt 7).1 (by decide),
   (getNode_total_bounds exChainSt 2).2 (by decide)⟩

/-- C10: whenever the flag mask contains IS_GAUSSIAN_VALID,
resetFlagUpToRoot marks the treemap estimate stale unconditionally, even
when the starting node already has the flag clear so that no node status
changes at all. -/
theorem resetFlagUpToRoot_estimate_stale (st : TmTreemapSt) (i flag : Nat)
    (h : flag &&& IS_GAUSSIAN_VALID ≠ 0) :
    (resetFlagUpToRoot st i flag).isEstimateValid = false ∧
    (flagSetAt st.node flag i = false →
      (resetFlagUpToRoot st i flag).node = st.node) := by
  constructor
  · simp [resetFlagUpToRoot, h]
  · intro hclear
    show resetLoop st.node.length st.node flag (some i) = st.node
    cases hL : st.node.length with
    | zero => rfl
    | succ k => exact resetLoop_start_clear _ _ _ _ hclear

/-- Witness for C10: starting at node 2, whose IS_GAUSSIAN_VALID flag is
already clear, the estimate still becomes stale while the arena is
untouched. -/
theorem resetFlagUpToRoot_estimate_stale_witness :
    IS_GAUSSIAN_VALID &&& IS_GAUSSIAN_VALID ≠ 0 ∧
    flagSetAt exChainSt.node IS_GAUSSIAN_VALID 2 = false ∧
    (resetFlagUpToRoot exChainSt 2 IS_GAUSSIAN_VALID).isEstimateValid =
      false ∧
    (resetFlagUpToRoot exChainSt 2 IS_GAUSSIAN_VALID).node =
      exChainSt.node :=
  ⟨by decide, by decide,
   (resetFlagUpToRoot_estimate_stale exChainSt 2 IS_GAUSSIAN_VALID
      (by decide)).1,
   (resetFlagUpToRoot_estimate_stale exChainSt 2 IS_GAUSSIAN_VALID
      (by decide)).2 (by decide)⟩

/-! ## Feature registry (spec-modelled)

The bodies of TmTreemap::newFeatureBlock and TmTreemap::deleteFeature are
not under src; only their declarations, doc comments and the constant
MAX_FEATURE_BLOCK_SIZE = 16 are.  The registry is modelled from the
specification, at block granularity: a free stack of block start ids per
block size. -/

/-- MAX_FEATURE_BLOCK_SIZE of the source: free block lists are maintained
only up to this size. -/
def MAX_FEATURE_BLOCK_SIZE : Nat := 16

/-- Feature registry state: the number of ids handed out so far and, for
each block size, the stack of start ids of free blocks of exactly that
size (slot 0 unused, as in the source array firstUnusedFeature). -/
structure FeatureRegistry where
  nFeatures : Nat
  freeLists : List (List Nat)
deriving DecidableEq, Repr

/-- Modelled from the spec: the body of TmTreemap::newFeatureBlock is
missing from src.  Per the spec, a request of size n up to
MAX_FEATURE_BLOCK_SIZE consults the free list for exactly size n and pops
its first entry when present; otherwise — and always for n above the
maximum, without consulting any free list — n fresh ids are appended at
the end of the registry. -/
def newFeatureBlock (reg : FeatureRegistry) (n : Nat) :
    Nat × FeatureRegistry :=
  if n ≤ MAX_FEATURE_BLOCK_SIZE then
    match reg.freeLists.getD n [] with
    | [] => (reg.nFeatures, { reg with nFeatures := reg.nFeatures + n })
    | b :: rest =>
      (b, { reg with freeLists := reg.freeLists.set n rest })
  else (reg.nFeatures, { reg with nFeatures := reg.nFeatures + n })

/-- Modelled from the spec: the body of TmTreemap::deleteFeature is
missing from src.  Releasing the last id of a fully deleted block of size
n merges the ids back into one free block of the original size and pushes
its start id on the size-n free list. -/
def releaseFeatureBlock (reg : FeatureRegistry) (start n : Nat) :
    FeatureRegistry :=
  { reg with
    freeLists := reg.freeLists.set n (start :: reg.freeLists.getD n []) }

theorem newFeatureBlock_length (reg : FeatureRegistry) (n : Nat) :
    (newFeatureBlock reg n).2.freeLists.length = reg.freeLists.length := by
  simp only [newFeatureBlock]
  by_cases hn : n ≤ MAX_FEATURE_BLOCK_SIZE
  · rw [if_pos hn]
    cases hfree : reg.freeLists.getD n [] <;> simp
  · rw [if_neg hn]

theorem newFeatureBlock_after_release (reg : FeatureRegistry)
    (start k : Nat) (hk : k ≤ MAX_FEATURE_BLOCK_SIZE)
    (hklen : k < reg.freeLists.length) :
    (newFeatureBlock (releaseFeatureBlock reg start k) k).1 = start := by
  have hget : (releaseFeatureBlock reg start k).freeLists.getD k [] =
      start :: reg.freeLists.getD k [] := by
    simp [releaseFeatureBlock, List.getD_eq_getElem?_getD,
      List.getElem?_set_self hklen]
  simp only [newFeatureBlock, if_pos hk]
  rw [hget]

/-- C6: newFeatureBlock pops the exact-size free list for any request up
to MAX_FEATURE_BLOCK_SIZE and appends fresh ids otherwise; above the
maximum it always appends fresh ids without consulting a free list; and a
block of size k up to the maximum that is reserved and then fully released
is the block returned to the next size-k request, before anything else. -/
theorem newFeatureBlock_spec (reg : FeatureRegistry) (n k : Nat)
    (hlen : MAX_FEATURE_BLOCK_SIZE < reg.freeLists.length)
    (hk : k ≤ MAX_FEATURE_BLOCK_SIZE) :
    (∀ b rest, n ≤ MAX_FEATURE_BLOCK_SIZE →
      reg.freeLists.getD n [] = b :: rest →
      newFeatureBlock reg n =
        (b, { reg with freeLists := reg.freeLists.set n rest })) ∧
    (n ≤ MAX_FEATURE_BLOCK_SIZE → reg.freeLists.getD n [] = [] →
      newFeatureBlock reg n =
        (reg.nFeatures, { reg with nFeatures := reg.nFeatures + n })) ∧
    (MAX_FEATURE_BLOCK_SIZE < n →
      newFeatureBlock reg n =
        (reg.nFeatures, { reg with nFeatures := reg.nFeatures + n })) ∧
    (newFeatureBlock (releaseFeatureBlock (newFeatureBlock reg k).2
        (newFeatureBlock reg k).1 k) k).1 = (newFeatureBlock reg k).1 := by
  refine ⟨?_, ?_, ?_, ?_⟩
  · intro b rest hn hfree
    rw [List.getD_eq_getElem?_getD] at hfree
    simp [newFeatureBlock, hn, hfree]
  · intro hn hfree
    rw [List.getD_eq_getElem?_getD] at hfree
    simp [newFeatureBlock, hn, hfree]
  · intro hn
    simp [newFeatureBlock, Nat.not_le_of_lt hn]
  · exact newFeatureBlock_after_release (newFeatureBlock reg k).2
      (newFeatureBlock reg k).1 k hk
      (by rw [newFeatureBlock_length]; exact Nat.lt_of_le_of_lt hk hlen)

/-- Witness for C6: in a fresh registry, a block of size 4 is reserved
(ids 0..3), fully released, and handed out again by the next size-4
request; the pop, append and above-maximum branches are exercised on the
same registry. -/
theorem newFeatureBlock_spec_witness :
    (MAX_FEATURE_BLOCK_SIZE <
      (FeatureRegistry.mk 0 (List.replicate 17 [])).freeLists.length ∧
     4 ≤ MAX_FEATURE_BLOCK_SIZE) ∧
    (newFeatureBlock (releaseFeatureBlock
        (newFeatureBlock (FeatureRegistry.mk 0 (List.replicate 17 [])) 4).2
        (newFeatureBlock (FeatureRegistry.mk 0 (List.replicate 17 [])) 4).1
        4) 4).1 =
      (newFeatureBlock (FeatureRegistry.mk 0 (List.replicate 17 [])) 4).1 :=
  ⟨⟨by decide, by decide⟩,
   (newFeatureBlock_spec (FeatureRegistry.mk 0 (List.replicate 17 [])) 4 4
     (by decide) (by decide)).2.2.2⟩

/-! ## Factor aggregation (spec-modelled)

The body of TmTreemap::effectOfJoining is not under src; only its
declaration and doc comment are.  The aggregation is modelled from the
specification over a tree of leaves carrying capability flags and feature
lists, with the per-feature policy context passed in explicitly. -/

/-- A subtree for factor aggregation: each leaf carries the
CAN_BE_INTEGRATED capability of its original distribution and the feature
ids it involves. -/
inductive SubtreeT where
  | leaf (canBeIntegrated : Bool) (features : List Nat) : SubtreeT
  | node (l r : SubtreeT) : SubtreeT
deriving DecidableEq, Repr

/-- All leaves below a subtree, left to right. -/
def leavesOf : SubtreeT → List (Bool × List Nat)
  | .leaf c fs => [(c, fs)]
  | .node l r => leavesOf l ++ leavesOf r

/-- Whether every original distribution below the subtree is marked
CAN_BE_INTEGRATED. -/
def allIntegrable : SubtreeT → Bool
  | .leaf c _ => c
  | .node l r => allIntegrable l && allIntegrable r

/-- Features involved in some leaf below the subtree, duplicates removed,
in first-seen order. -/
def featuresBelow (t : SubtreeT) : List Nat :=
  ((leavesOf t).foldl (fun a lf => a ++ lf.2) []).dedup

/-- Per-feature context of one aggregation: capability flags and whether
the feature is involved in leaves outside the subtree. -/
structure FeatureCtx where
  canBeMarginalizedOut : Nat → Bool
  canBeSparsified : Nat → Bool
  involvedOutside : Nat → Bool

/-- Modelled from the spec: the body of TmTreemap::effectOfJoining is
missing from src.  It partitions the features involved below the subtree
into the permanently marginalized, the conditionally marginalized and the
passed group, returning the grouped list with the three counts; when any
original distribution below the subtree is not marked CAN_BE_INTEGRATED
it fails as a whole with an empty list and the sentinel counts
nPM = nM = nP = -1. -/
def effectOfJoining (ctx : FeatureCtx) (t : SubtreeT) :
    List Nat × Int × Int × Int :=
  if allIntegrable t then
    let fs := featuresBelow t
    let isPM := fun f =>
      (ctx.canBeMarginalizedOut f && !ctx.involvedOutside f) ||
        ctx.canBeSparsified f
    let pm := fs.filter isPM
    let rest := fs.filter fun f => !isPM f
    let m := rest.filter fun f => !ctx.involvedOutside f
    let p := rest.filter fun f => ctx.involvedOutside f
    (pm ++ m ++ p, (pm.length : Int), (m.length : Int), (p.length : Int))
  else ([], -1, -1, -1)

theorem allIntegrable_eq_all (t : SubtreeT) :
    allIntegrable t = (leavesOf t).all (fun lf => lf.1) := by
  induction t with
  | leaf c fs => simp [allIntegrable, leavesOf]
  | node l r ihl ihr => simp [allIntegrable, leavesOf, ihl, ihr]

/-- C5: for every subtree containing at least one leaf whose original
distribution is not marked CAN_BE_INTEGRATED, effectOfJoining fails as a
whole, returning an empty feature list and the sentinel counts
nPM = nM = nP = -1, never a partial result. -/
theorem effectOfJoining_not_aggregable (ctx : FeatureCtx) (t : SubtreeT)
    (h : ∃ lf ∈ leavesOf t, lf.1 = false) :
    effectOfJoining ctx t = ([], -1, -1, -1) := by
  have hall : allIntegrable t = false := by
    rw [allIntegrable_eq_all]
    rw [Bool.eq_false_iff]
    intro hcon
    obtain ⟨lf, hmem, hf⟩ := h
    have := List.all_eq_true.mp hcon lf hmem
    rw [hf] at this
    exact Bool.false_ne_true this
  simp [effectOfJoining, hall]

/-- A concrete aggregation context for the witness. -/
def exCtx : FeatureCtx :=
  { canBeMarginalizedOut := fun f => f == 0
    canBeSparsified := fun _ => false
    involvedOutside := fun f => f == 2 }

/-- A concrete subtree for the witness: its right leaf is not
CAN_BE_INTEGRATED. -/
def exBadSubtree : SubtreeT :=
  .node (.leaf true [0, 1]) (.leaf false [1, 2])

/-- Witness for C5: on the concrete subtree with one non-integrable leaf,
the aggregation returns the empty list and the sentinel counts. -/
theorem effectOfJoining_not_aggregable_witness :
    (∃ lf ∈ leavesOf exBadSubtree, lf.1 = false) ∧
    effectOfJoining exCtx exBadSubtree = ([], -1, -1, -1) :=
  ⟨by decide,
   effectOfJoining_not_aggregable exCtx exBadSubtree (by decide)⟩

/-! ## Treemap facade: leaf insertion (spec-modelled)

The bodies of TmTreemap::addLeaf and TmTreemap::newNodeIndex are not
under src; only their declarations and doc comments are.  They are
modelled from the specification over an arena of nodes that also carry
their two child links. -/

/-- Arena record for a tree node of the facade model: status bit set,
parent link and the pair of child links (none for a leaf). -/
structure FNode where
  status : Nat
  parent : Option Nat
  children : Option (Nat × Nat)
deriving DecidableEq, Repr

/-- Facade state: node arena, free list of node indices, root and the
optimization queue. -/
structure FacadeSt where
  node : List (Option FNode)
  unusedNodes : List Nat
  root : Option Nat
  queue : List Nat
deriving DecidableEq, Repr

/-- Reading facade arena slot i. -/
def lookupF (ns : List (Option FNode)) (i : Nat) : Option FNode :=
  ns.getD i none

/-- Overwriting facade arena slot i. -/
def setF (ns : List (Option FNode)) (i : Nat) (r : FNode) :
    List (Option FNode) :=
  ns.set i (some r)

/-- The two cache-validity bits together. -/
def FP_GV : Nat := IS_FEATURE_PASSED_VALID ||| IS_GAUSSIAN_VALID

theorem lookupF_eq (ns : List (Option FNode)) (i : Nat) :
    lookupF ns i = (ns[i]?).getD none := by
  simp [lookupF, List.getD_eq_getElem?_getD]

theorem lookupF_some_lt {ns : List (Option FNode)} {i : Nat} {r : FNode}
    (h : lookupF ns i = some r) : i < ns.length := by
  rw [lookupF_eq] at h
  cases hg : ns[i]? with
  | none => rw [hg] at h; simp at h
  | some o => rw [List.getElem?_eq_some] at hg; exact hg.1

theorem lookupF_set_self {ns : List (Option FNode)} {i : Nat} (r : FNode)
    (h : i < ns.length) : lookupF (setF ns i r) i = some r := by
  simp [lookupF_eq, setF, List.getElem?_set_self h]

theorem lookupF_set_ne {ns : List (Option FNode)} {i j : Nat} (r : FNode)
    (h : i ≠ j) : lookupF (setF ns i r) j = lookupF ns j := by
  simp [lookupF_eq, setF, List.getElem?_set_ne h]

theorem lookupF_append_one (ns : List (Option FNode)) (r : FNode)
    (j : Nat) (h : j ≠ ns.length) :
    lookupF (ns ++ [some r]) j = lookupF ns j := by
  rw [lookupF_eq, lookupF_eq, List.getElem?_append]
  rcases Nat.lt_or_ge j ns.length with hj | hj
  · rw [if_pos hj]
  · have hgt : ns.length < j := Nat.lt_of_le_of_ne hj (Ne.symm h)
    rw [if_neg (Nat.not_lt.mpr hj)]
    rw [@List.getElem?_eq_none _ ns _ (Nat.le_of_lt hgt)]
    rw [List.getElem?_eq_none (by simp; omega)]

theorem lookupF_append_self (ns : List (Option FNode)) (r : FNode) :
    lookupF (ns ++ [some r]) ns.length = some r := by
  rw [lookupF_eq, List.getElem?_append_right (Nat.le_refl _)]
  simp

theorem lookupF_length (ns : List (Option FNode)) :
    lookupF ns ns.length = none := by
  rw [lookupF_eq, List.getElem?_eq_none (Nat.le_refl _)]
  rfl

/-- Modelled from the spec: the body of TmTreemap::newNodeIndex is missing
from src.  Per its doc comment, an unused index is recycled when one
exists, otherwise a slot is appended; the slot of the chosen index is
assigned the new node. -/
def newNodeIndex (st : FacadeSt) (r : FNode) : Nat × FacadeSt :=
  match st.unusedNodes with
  | u :: rest =>
    (u, { st with node := setF st.node u r, unusedNodes := rest })
  | [] =>
    (st.node.length, { st with node := st.node ++ [some r] })

/-- Well-formedness of the node free list: every unused index points at an
empty in-range slot. -/
def UnusedOk (st : FacadeSt) : Prop :=
  ∀ u ∈ st.unusedNodes, u < st.node.length ∧ lookupF st.node u = none

theorem newNodeIndex_lookup_self (st : FacadeSt) (r : FNode)
    (hub : UnusedOk st) :
    lookupF (newNodeIndex st r).2.node (newNodeIndex st r).1 = some r := by
  cases hu : st.unusedNodes with
  | nil => simp only [newNodeIndex, hu]; exact lookupF_append_self _ _
  | cons u rest =>
    simp only [newNodeIndex, hu]
    exact lookupF_set_self r (hub u (by rw [hu]; exact List.mem_cons_self u rest)).1

theorem newNodeIndex_lookup_ne (st : FacadeSt) (r : FNode) (j : Nat)
    (hj : j ≠ (newNodeIndex st r).1) :
    lookupF (newNodeIndex st r).2.node j = lookupF st.node j := by
  cases hu : st.unusedNodes with
  | nil =>
    simp only [newNodeIndex, hu] at hj ⊢
    exact lookupF_append_one _ _ _ hj
  | cons u rest =>
    simp only [newNodeIndex, hu] at hj ⊢
    exact lookupF_set_ne r (Ne.symm hj)

theorem newNodeIndex_prev_none (st : FacadeSt) (r : FNode)
    (hub : UnusedOk st) :
    lookupF st.node (newNodeIndex st r).1 = none := by
  cases hu : st.unusedNodes with
  | nil => simp only [newNodeIndex, hu]; exact lookupF_length _
  | cons u rest =>
    simp only [newNodeIndex, hu]
    exact (hub u (by rw [hu]; exact List.mem_cons_self u rest)).2

theorem newNodeIndex_root (st : FacadeSt) (r : FNode) :
    (newNodeIndex st r).2.root = st.root := by
  cases hu : st.unusedNodes <;> simp [newNodeIndex, hu]

theorem newNodeIndex_queue (st : FacadeSt) (r : FNode) :
    (newNodeIndex st r).2.queue = st.queue := by
  cases hu : st.unusedNodes <;> simp [newNodeIndex, hu]

theorem newNodeIndex_unusedOk (st : FacadeSt) (r : FNode)
    (hub : UnusedOk st) (hnd : st.unusedNodes.Nodup) :
    UnusedOk (newNodeIndex st r).2 := by
  cases hu : st.unusedNodes with
  | nil =>
    intro v hv
    simp only [newNodeIndex, hu] at hv
    exact absurd hv (List.not_mem_nil v)
  | cons u rest =>
    intro v hv
    simp only [newNodeIndex, hu] at hv ⊢
    have hvmem : v ∈ st.unusedNodes := by
      rw [hu]; exact List.mem_cons_of_mem u hv
    have hvu : u ≠ v := by
      rw [hu] at hnd
      exact fun he => (List.Nodup.not_mem hnd) (he ▸ hv)
    refine ⟨?_, ?_⟩
    · rw [show (setF st.node u r).length = st.node.length by
        simp [setF]]
      exact (hub v hvmem).1
    · rw [lookupF_set_ne r hvu]
      exact (hub v hvmem).2

theorem newNodeIndex_nodup (st : FacadeSt) (r : FNode)
    (hnd : st.unusedNodes.Nodup) :
    (newNodeIndex st r).2.unusedNodes.Nodup := by
  cases hu : st.unusedNodes with
  | nil => simp [newNodeIndex, hu]
  | cons u rest =>
    simp only [newNodeIndex, hu]
    rw [hu] at hnd
    exact List.Nodup.of_cons hnd

/-- Status word stored at facade slot i, empty slots reading as zero. -/
def statusF (ns : List (Option FNode)) (i : Nat) : Nat :=
  match lookupF ns i with
  | none => 0
  | some r => r.status

theorem ldiff_land (s f : Nat) : Nat.ldiff s f &&& f = 0 := by
  apply Nat.eq_of_testBit_eq
  intro k
  rw [Nat.testBit_and, Nat.zero_testBit, Nat.testBit_ldiff]
  cases hb : f.testBit k <;> simp

/-- The record of a freshly created leaf: the caller flags with both
cache-validity bits clear, no parent yet, no children. -/
def leafRec (flags : Nat) : FNode :=
  { status := Nat.ldiff flags FP_GV, parent := none, children := none }

/-- The record of the fresh inner node placed above the old root: caches
invalid, children the old root and the new leaf. -/
def innerRec (rt lf : Nat) : FNode :=
  { status := 0, parent := none, children := some (rt, lf) }

/-- Modelled from the spec: the body of TmTreemap::addLeaf is missing
from src.  A leaf node is allocated with its caches invalid; when the
tree is empty it becomes the root, otherwise a fresh inner node is placed
above the old root with the old root and the new leaf as children, so the
caches on the path from the new leaf to the new root are invalid.  The
new leaf is appended to the optimization queue and returned.  No other
part of the tree is touched. -/
def addLeaf (st : FacadeSt) (flags : Nat) : Nat × FacadeSt :=
  match st.root with
  | none =>
    let al := newNodeIndex st (leafRec flags)
    (al.1, { al.2 with root := some al.1, queue := al.2.queue ++ [al.1] })
  | some rt =>
    let al := newNodeIndex st (leafRec flags)
    let ap := newNodeIndex al.2 (innerRec rt al.1)
    let ns1 := setF ap.2.node al.1 { leafRec flags with parent := some ap.1 }
    let ns2 :=
      match lookupF ns1 rt with
      | some rrec => setF ns1 rt { rrec with parent := some ap.1 }
      | none => ns1
    (al.1, { ap.2 with
              node := ns2
              root := some ap.1
              queue := ap.2.queue ++ [al.1] })

/-- C7: addLeaf allocates a fresh node, attaches it above the current
root (or makes it the root of the empty tree), leaves the caches invalid
on the whole path from the new leaf to the new root, appends the leaf to
the optimization queue and returns it; no pre-existing node changes
except the old root, which only acquires the new inner node as parent —
the insertion rebalances nothing. -/
theorem addLeaf_spec (st : FacadeSt) (flags : Nat)
    (hub : UnusedOk st) (hnd : st.unusedNodes.Nodup) :
    lookupF st.node (addLeaf st flags).1 = none ∧
    (addLeaf st flags).2.queue = st.queue ++ [(addLeaf st flags).1] ∧
    (st.root = none →
      (addLeaf st flags).2.root = some (addLeaf st flags).1 ∧
      lookupF (addLeaf st flags).2.node (addLeaf st flags).1 =
        some (leafRec flags) ∧
      statusF (addLeaf st flags).2.node (addLeaf st flags).1 &&& FP_GV = 0 ∧
      (∀ j, j ≠ (addLeaf st flags).1 →
        lookupF (addLeaf st flags).2.node j = lookupF st.node j)) ∧
    (∀ rt rrec, st.root = some rt → lookupF st.node rt = some rrec →
      ∃ p, (addLeaf st flags).1 ≠ rt ∧ p ≠ rt ∧ p ≠ (addLeaf st flags).1 ∧
        (addLeaf st flags).2.root = some p ∧
        lookupF (addLeaf st flags).2.node p =
          some (innerRec rt (addLeaf st flags).1) ∧
        lookupF (addLeaf st flags).2.node (addLeaf st flags).1 =
          some { leafRec flags with parent := some p } ∧
        lookupF (addLeaf st flags).2.node rt =
          some { rrec with parent := some p } ∧
        statusF (addLeaf st flags).2.node (addLeaf st flags).1 &&&
          FP_GV = 0 ∧
        statusF (addLeaf st flags).2.node p &&& FP_GV = 0 ∧
        (∀ j, j ≠ (addLeaf st flags).1 → j ≠ p → j ≠ rt →
          lookupF (addLeaf st flags).2.node j = lookupF st.node j)) := by
  cases hroot : st.root with
  | none =>
    rcases h : newNodeIndex st (leafRec flags) with ⟨lf, st1⟩
    have hself : lookupF st1.node lf = some (leafRec flags) := by
      have := newNodeIndex_lookup_self st (leafRec flags) hub
      rw [h] at this; exact this
    have hprev : lookupF st.node lf = none := by
      have := newNodeIndex_prev_none st (leafRec flags) hub
      rw [h] at this; exact this
    have hq : st1.queue = st.queue := by
      have := newNodeIndex_queue st (leafRec flags)
      rw [h] at this; exact this
    have hne : ∀ j, j ≠ lf → lookupF st1.node j = lookupF st.node j := by
      intro j hj
      have := newNodeIndex_lookup_ne st (leafRec flags) j (by rw [h]; exact hj)
      rw [h] at this; exact this
    have hadd : addLeaf st flags =
        (lf, { st1 with root := some lf, queue := st1.queue ++ [lf] }) := by
      simp only [addLeaf, hroot, h]
    rw [hadd]
    refine ⟨hprev, ?_, ?_, ?_⟩
    · show st1.queue ++ [lf] = st.queue ++ [lf]
      rw [hq]
    · intro _
      refine ⟨rfl, hself, ?_, fun j hj => hne j hj⟩
      show statusF st1.node lf &&& FP_GV = 0
      simp [statusF, hself, leafRec, ldiff_land]
    · intro rt rrec h1 _
      exact absurd h1 (by simp)
  | some rt0 =>
    rcases h : newNodeIndex st (leafRec flags) with ⟨lf, st1⟩
    have hself1 : lookupF st1.node lf = some (leafRec flags) := by
      have := newNodeIndex_lookup_self st (leafRec flags) hub
      rw [h] at this; exact this
    have hprev1 : lookupF st.node lf = none := by
      have := newNodeIndex_prev_none st (leafRec flags) hub
      rw [h] at this; exact this
    have hq1 : st1.queue = st.queue := by
      have := newNodeIndex_queue st (leafRec flags)
      rw [h] at this; exact this
    have hub1 : UnusedOk st1 := by
      have := newNodeIndex_unusedOk st (leafRec flags) hub hnd
      rw [h] at this; exact this
    have hne1 : ∀ j, j ≠ lf → lookupF st1.node j = lookupF st.node j := by
      intro j hj
      have := newNodeIndex_lookup_ne st (leafRec flags) j (by rw [h]; exact hj)
      rw [h] at this; exact this
    rcases h2 : newNodeIndex st1 (innerRec rt0 lf) with ⟨p, st2⟩
    have hself2 : lookupF st2.node p = some (innerRec rt0 lf) := by
      have := newNodeIndex_lookup_self st1 (innerRec rt0 lf) hub1
      rw [h2] at this; exact this
    have hprev2 : lookupF st1.node p = none := by
      have := newNodeIndex_prev_none st1 (innerRec rt0 lf) hub1
      rw [h2] at this; exact this
    have hq2 : st2.queue = st1.queue := by
      have := newNodeIndex_queue st1 (innerRec rt0 lf)
      rw [h2] at this; exact this
    have hne2 : ∀ j, j ≠ p → lookupF st2.node j = lookupF st1.node j := by
      intro j hj
      have := newNodeIndex_lookup_ne st1 (innerRec rt0 lf) j
        (by rw [h2]; exact hj)
      rw [h2] at this; exact this
    have hp_lf : p ≠ lf := by
      intro he
      rw [he, hself1] at hprev2
      exact absurd hprev2 (by simp)
    have hlf2 : lookupF st2.node lf = some (leafRec flags) := by
      rw [hne2 lf fun he => hp_lf he.symm]
      exact hself1
    have hlf_lt : lf < st2.node.length := lookupF_some_lt hlf2
    have hfst : (addLeaf st flags).1 = lf := by
      simp only [addLeaf, hroot, h, h2]
    have hq_add : (addLeaf st flags).2.queue = st2.queue ++ [lf] := by
      simp only [addLeaf, hroot, h, h2]
    have hroot_add : (addLeaf st flags).2.root = some p := by
      simp only [addLeaf, hroot, h, h2]
    refine ⟨?_, ?_, ?_, ?_⟩
    · rw [hfst]; exact hprev1
    · rw [hq_add, hfst, hq2, hq1]
    · intro hcon
      exact absurd hcon (by simp)
    · intro rt rrec h1 hrtlook
      have hrteq : rt = rt0 := Option.some_inj.mp h1.symm
      rw [hrteq] at hrtlook ⊢
      have hlf_rt : lf ≠ rt0 := by
        intro he
        rw [he, hrtlook] at hprev1
        exact absurd hprev1 (by simp)
      have hrt1 : lookupF st1.node rt0 = some rrec := by
        rw [hne1 rt0 fun he => hlf_rt he.symm]
        exact hrtlook
      have hp_rt : p ≠ rt0 := by
        intro he
        rw [he, hrt1] at hprev2
        exact absurd hprev2 (by simp)
      have hrt2 : lookupF st2.node rt0 = some rrec := by
        rw [hne2 rt0 fun he => hp_rt he.symm]
        exact hrt1
      have hns1_rt : lookupF (setF st2.node lf
          { leafRec flags with parent := some p }) rt0 = some rrec := by
        rw [lookupF_set_ne _ hlf_rt]
        exact hrt2
      have hns1_lf : lookupF (setF st2.node lf
          { leafRec flags with parent := some p }) lf =
          some { leafRec flags with parent := some p } :=
        lookupF_set_self _ hlf_lt
      have hns1_p : lookupF (setF st2.node lf
          { leafRec flags with parent := some p }) p =
          some (innerRec rt0 lf) := by
        rw [lookupF_set_ne _ fun he => hp_lf he.symm]
        exact hself2
      have hrt_lt : rt0 < (setF st2.node lf
          { leafRec flags with parent := some p }).length :=
        lookupF_some_lt hns1_rt
      have hnode_add : (addLeaf st flags).2.node =
          setF (setF st2.node lf { leafRec flags with parent := some p })
            rt0 { rrec with parent := some p } := by
        simp only [addLeaf, hroot, h, h2, hns1_rt]
      have final_rt : lookupF (setF (setF st2.node lf
          { leafRec flags with parent := some p }) rt0
          { rrec with parent := some p }) rt0 =
          some { rrec with parent := some p } :=
        lookupF_set_self _ hrt_lt
      have final_lf : lookupF (setF (setF st2.node lf
          { leafRec flags with parent := some p }) rt0
          { rrec with parent := some p }) lf =
          some { leafRec flags with parent := some p } := by
        rw [lookupF_set_ne _ fun he => hlf_rt he.symm]
        exact hns1_lf
      have final_p : lookupF (setF (setF st2.node lf
          { leafRec flags with parent := some p }) rt0
          { rrec with parent := some p }) p = some (innerRec rt0 lf) := by
        rw [lookupF_set_ne _ fun he => hp_rt he.symm]
        exact hns1_p
      refine ⟨p, ?_, hp_rt, ?_, hroot_add, ?_, ?_, ?_, ?_, ?_, ?_⟩
      · rw [hfst]; exact hlf_rt
      · rw [hfst]; exact hp_lf
      · rw [hnode_add, hfst]; exact final_p
      · rw [hnode_add, hfst]; exact final_lf
      · rw [hnode_add]; exact final_rt
      · rw [hnode_add, hfst]
        simp only [statusF]
        rw [final_lf]
        exact ldiff_land flags FP_GV
      · rw [hnode_add]
        simp [statusF, final_p, innerRec]
      · intro j hjlf hjp hjrt
        rw [hfst] at hjlf
        rw [hnode_add]
        rw [lookupF_set_ne _ fun he => hjrt he.symm,
          lookupF_set_ne _ fun he => hjlf he.symm,
          hne2 j hjp, hne1 j hjlf]

/-- A concrete one-node facade state: a single root leaf with slot 0. -/
def exFacadeSt : FacadeSt :=
  { node := [some ⟨3, none, none⟩], unusedNodes := [], root := some 0,
    queue := [] }

/-- Witness for C7: adding a leaf to the one-node tree allocates a fresh
slot, hangs a new inner root over old root 0 and the new leaf, leaves the
caches on that path invalid, and enqueues the leaf. -/
theorem addLeaf_spec_witness :
    lookupF exFacadeSt.node (addLeaf exFacadeSt 32).1 = none ∧
    (addLeaf exFacadeSt 32).2.queue =
      exFacadeSt.queue ++ [(addLeaf exFacadeSt 32).1] ∧
    (∃ p, (addLeaf exFacadeSt 32).1 ≠ 0 ∧ p ≠ 0 ∧
      p ≠ (addLeaf exFacadeSt 32).1 ∧
      (addLeaf exFacadeSt 32).2.root = some p ∧
      lookupF (addLeaf exFacadeSt 32).2.node p =
        some (innerRec 0 (addLeaf exFacadeSt 32).1) ∧
      lookupF (addLeaf exFacadeSt 32).2.node (addLeaf exFacadeSt 32).1 =
        some { leafRec 32 with parent := some p } ∧
      lookupF (addLeaf exFacadeSt 32).2.node 0 =
        some { (⟨3, none, none⟩ : FNode) with parent := some p } ∧
      statusF (addLeaf exFacadeSt 32).2.node (addLeaf exFacadeSt 32).1 &&&
        FP_GV = 0 ∧
      statusF (addLeaf exFacadeSt 32).2.node p &&& FP_GV = 0 ∧
      (∀ j, j ≠ (addLeaf exFacadeSt 32).1 → j ≠ p → j ≠ 0 →
        lookupF (addLeaf exFacadeSt 32).2.node j =
          lookupF exFacadeSt.node j)) :=
  ⟨(addLeaf_spec exFacadeSt 32
      (fun u hu => absurd hu (by simp [exFacadeSt])) (by decide)).1,
   (addLeaf_spec exFacadeSt 32
      (fun u hu => absurd hu (by simp [exFacadeSt])) (by decide)).2.1,
   (addLeaf_spec exFacadeSt 32
      (fun u hu => absurd hu (by simp [exFacadeSt])) (by decide)).2.2.2 0
     ⟨3, none, none⟩ rfl (by decide)⟩

/-! ## Restriction of estimate propagation (spec-modelled)

The body of TmTreemap::onlyUpdateEstimatesFor is not under src; only its
declaration and doc comment are.  Per spec section 4.4, the estimate of a
feature is produced at its marginalization node by the top-down pass, so
the nodes whose estimates must be recomputed for a feature are that node
and its ancestors up to the root.  The operation is modelled over the
same status/parent arena as resetFlagUpToRoot. -/

/-- Setting flag bits on every node of the arena. -/
def setAllFlag (ns : List (Option TmNodeRec)) (flag : Nat) :
    List (Option TmNodeRec) :=
  ns.map (Option.map fun r => { r with status := r.status ||| flag })

/-- Clearing flag bits on each listed arena slot in turn. -/
def clearFlagAlong (ns : List (Option TmNodeRec)) (flag : Nat)
    (chain : List Nat) : List (Option TmNodeRec) :=
  chain.foldl
    (fun acc j =>
      match lookupNode acc j with
      | none => acc
      | some r => setNodeAt acc j (clearStatus r flag))
    ns

/-- Modelled from the spec: the body of
TmTreemap::onlyUpdateEstimatesFor is missing from src.  With the
set-dont-update option of the source in force, the flag is first set on
every node, then cleared along the path from the marginalization node of
each feature in [a, b) up to the root — the nodes needed for the top-down
estimate pass to reach those features. -/
def onlyUpdateEstimatesFor (ns : List (Option TmNodeRec))
    (marg : List (Option Nat)) (a b : Nat) : List (Option TmNodeRec) :=
  (List.range' a (b - a)).foldl
    (fun acc f =>
      match marg.getD f none with
      | none => acc
      | some mn =>
        clearFlagAlong acc DONT_UPDATE_ESTIMATE
          (ancestorChain acc.length acc (some mn)))
    (setAllFlag ns DONT_UPDATE_ESTIMATE)

/-- The minimal node set needed to update the estimates of the features in
[a, b): a node is needed exactly when it lies on the root path of the
marginalization node of one of those features. -/
def neededForEstimates (ns : List (Option TmNodeRec))
    (marg : List (Option Nat)) (a b j : Nat) : Bool :=
  (List.range' a (b - a)).any fun f =>
    match marg.getD f none with
    | none => false
    | some mn => decide (j ∈ ancestorChain ns.length ns (some mn))

theorem setAllFlag_lookup (ns : List (Option TmNodeRec)) (flag j : Nat) :
    lookupNode (setAllFlag ns flag) j =
      (lookupNode ns j).map fun r => { r with status := r.status ||| flag } := by
  rw [lookupNode_eq, lookupNode_eq, setAllFlag, List.getElem?_map]
  cases ns[j]? with
  | none => rfl
  | some o => cases o <;> rfl

theorem setAllFlag_length (ns : List (Option TmNodeRec)) (flag : Nat) :
    (setAllFlag ns flag).length = ns.length := by
  simp [setAllFlag]

theorem clearFlagAlong_lookup (chain : List Nat)
    (ns : List (Option TmNodeRec)) (flag j : Nat) :
    lookupNode (clearFlagAlong ns flag chain) j =
      if j ∈ chain then (lookupNode ns j).map (fun r => clearStatus r flag)
      else lookupNode ns j := by
  induction chain generalizing ns with
  | nil => simp [clearFlagAlong]
  | cons c cs ih =>
    rw [show clearFlagAlong ns flag (c :: cs) =
        clearFlagAlong (match lookupNode ns c with
          | none => ns
          | some r => setNodeAt ns c (clearStatus r flag)) flag cs from rfl]
    cases hc : lookupNode ns c with
    | none =>
      rw [ih]
      by_cases hj : j = c
      · subst hj
        simp [hc]
      · simp [List.mem_cons, hj]
    | some r =>
      rw [ih]
      by_cases hj : j = c
      · subst hj
        rw [lookupNode_set_self _ (lookupNode_some_lt hc)]
        by_cases hm : j ∈ cs
        · simp [hm, hc, clearStatus_idem]
        · simp [hm, hc]
      · rw [lookupNode_set_ne _ (Ne.symm hj)]
        simp [List.mem_cons, hj]

theorem clearFlagAlong_length (chain : List Nat)
    (ns : List (Option TmNodeRec)) (flag : Nat) :
    (clearFlagAlong ns flag chain).length = ns.length := by
  induction chain generalizing ns with
  | nil => rfl
  | cons c cs ih =>
    rw [show clearFlagAlong ns flag (c :: cs) =
        clearFlagAlong (match lookupNode ns c with
          | none => ns
          | some r => setNodeAt ns c (clearStatus r flag)) flag cs from rfl]
    cases hc : lookupNode ns c with
    | none => rw [ih]
    | some r => rw [ih]; simp [setNodeAt]

/-- Ancestor chains depend only on slot occupancy and parent links. -/
theorem ancestorChain_congr (fuel : Nat)
    {ns ns' : List (Option TmNodeRec)}
    (h : ∀ j, (lookupNode ns' j).map (fun r => r.parent) =
      (lookupNode ns j).map (fun r => r.parent)) (oi : Option Nat) :
    ancestorChain fuel ns' oi = ancestorChain fuel ns oi := by
  induction fuel generalizing oi with
  | zero => rfl
  | succ fuel ih =>
    cases oi with
    | none => rfl
    | some i =>
      cases hl : lookupNode ns i with
      | none =>
        have h' := h i
        rw [hl] at h'
        have : lookupNode ns' i = none := by
          cases hl' : lookupNode ns' i
          · rfl
          · rw [hl'] at h'; simp at h'
        simp [ancestorChain, hl, this]
      | some r =>
        have h' := h i
        rw [hl] at h'
        cases hl' : lookupNode ns' i with
        | none => rw [hl'] at h'; simp at h'
        | some r' =>
          rw [hl'] at h'
          have hpar : r'.parent = r.parent := by simpa using h'
          rw [show ancestorChain (fuel + 1) ns' (some i) =
              i :: ancestorChain fuel ns' r'.parent by
            simp [ancestorChain, hl']]
          rw [show ancestorChain (fuel + 1) ns (some i) =
              i :: ancestorChain fuel ns r.parent by
            simp [ancestorChain, hl]]
          rw [hpar, ih]

theorem lor_land_self (s f : Nat) : (s ||| f) &&& f = f := by
  apply Nat.eq_of_testBit_eq
  intro k
  rw [Nat.testBit_and, Nat.testBit_or]
  cases hb : f.testBit k <;> simp

/-- Pointwise effect of the restriction fold: starting from an arena whose
slots are the original ones with the flag set, and possibly already
cleared on a set SB, processing the feature list L leaves each slot with
the flag cleared exactly when it was in SB or lies on the root path of the
marginalization node of a feature of L. -/
theorem ouef_foldl_lookup (ns : List (Option TmNodeRec))
    (marg : List (Option Nat)) (L : List Nat) :
    ∀ (acc : List (Option TmNodeRec)) (SB : Nat → Bool),
      acc.length = ns.length →
      (∀ j, lookupNode acc j = (lookupNode ns j).map
        (fun r => if SB j
          then clearStatus { r with
            status := r.status ||| DONT_UPDATE_ESTIMATE } DONT_UPDATE_ESTIMATE
          else { r with status := r.status ||| DONT_UPDATE_ESTIMATE })) →
      ∀ j, lookupNode (L.foldl
          (fun acc f =>
            match marg.getD f none with
            | none => acc
            | some mn =>
              clearFlagAlong acc DONT_UPDATE_ESTIMATE
                (ancestorChain acc.length acc (some mn))) acc) j =
        (lookupNode ns j).map
          (fun r => if SB j || L.any (fun f =>
              match marg.getD f none with
              | none => false
              | some mn =>
                decide (j ∈ ancestorChain ns.length ns (some mn)))
            then clearStatus { r with
              status := r.status ||| DONT_UPDATE_ESTIMATE }
                DONT_UPDATE_ESTIMATE
            else { r with status := r.status ||| DONT_UPDATE_ESTIMATE }) := by
  induction L with
  | nil =>
    intro acc SB hlen hinv j
    rw [List.foldl_nil, hinv j]
    cases lookupNode ns j <;> simp
  | cons f L' ih =>
    intro acc SB hlen hinv j
    rw [List.foldl_cons]
    cases hm : marg.getD f none with
    | none =>
      simp only [hm]
      rw [ih acc SB hlen hinv j]
      rw [List.getD_eq_getElem?_getD] at hm
      cases lookupNode ns j <;> simp [List.any_cons, hm]
    | some mn =>
      simp only [hm]
      have hparcongr : ∀ j, (lookupNode acc j).map (fun r => r.parent) =
          (lookupNode ns j).map (fun r => r.parent) := by
        intro j
        rw [hinv j]
        cases lookupNode ns j with
        | none => rfl
        | some r => cases hb : SB j <;> simp [hb, clearStatus]
      have hchain : ancestorChain acc.length acc (some mn) =
          ancestorChain ns.length ns (some mn) := by
        rw [hlen]
        exact ancestorChain_congr ns.length hparcongr (some mn)
      have hlen1 : (clearFlagAlong acc DONT_UPDATE_ESTIMATE
          (ancestorChain acc.length acc (some mn))).length = ns.length := by
        rw [clearFlagAlong_length, hlen]
      have hinv1 : ∀ j, lookupNode (clearFlagAlong acc
          DONT_UPDATE_ESTIMATE (ancestorChain acc.length acc (some mn))) j =
          (lookupNode ns j).map
            (fun r => if (SB j ||
                decide (j ∈ ancestorChain ns.length ns (some mn)))
              then clearStatus { r with
                status := r.status ||| DONT_UPDATE_ESTIMATE }
                  DONT_UPDATE_ESTIMATE
              else { r with
                status := r.status ||| DONT_UPDATE_ESTIMATE }) := by
        intro j
        rw [clearFlagAlong_lookup, hchain, hinv j]
        by_cases hjm : j ∈ ancestorChain ns.length ns (some mn)
        · rw [if_pos hjm]
          cases lookupNode ns j with
          | none => rfl
          | some r => cases hb : SB j <;> simp [hb, hjm, clearStatus_idem]
        · rw [if_neg hjm]
          cases lookupNode ns j with
          | none => rfl
          | some r => cases hb : SB j <;> simp [hb, hjm]
      rw [ih _ _ hlen1 hinv1 j]
      rw [List.getD_eq_getElem?_getD] at hm
      cases lookupNode ns j with
      | none => rfl
      | some r =>
        cases hb : SB j <;> simp [hb, List.any_cons, hm, Bool.or_assoc]

/-- C8: onlyUpdateEstimatesFor clears the DONT_UPDATE_ESTIMATE flag on
exactly the minimal node set needed to update the estimates of the
features in [a, b) — the root paths of their marginalization nodes — and
leaves the flag set on every other node of the arena. -/
theorem onlyUpdateEstimatesFor_minimal (ns : List (Option TmNodeRec))
    (marg : List (Option Nat)) (a b : Nat) :
    ∀ j, flagSetAt (onlyUpdateEstimatesFor ns marg a b)
        DONT_UPDATE_ESTIMATE j =
      ((lookupNode ns j).isSome && !(neededForEstimates ns marg a b j)) := by
  intro j
  have hbase : ∀ j, lookupNode (setAllFlag ns DONT_UPDATE_ESTIMATE) j =
      (lookupNode ns j).map
        (fun r => if (fun _ : Nat => false) j
          then clearStatus { r with
            status := r.status ||| DONT_UPDATE_ESTIMATE }
              DONT_UPDATE_ESTIMATE
          else { r with status := r.status ||| DONT_UPDATE_ESTIMATE }) := by
    intro j
    rw [setAllFlag_lookup]
    cases lookupNode ns j <;> rfl
  have hmain := ouef_foldl_lookup ns marg (List.range' a (b - a))
    (setAllFlag ns DONT_UPDATE_ESTIMATE) (fun _ => false)
    (setAllFlag_length ns DONT_UPDATE_ESTIMATE) hbase j
  rw [show onlyUpdateEstimatesFor ns marg a b = (List.range' a (b - a)).foldl
      (fun acc f =>
        match marg.getD f none with
        | none => acc
        | some mn =>
          clearFlagAlong acc DONT_UPDATE_ESTIMATE
            (ancestorChain acc.length acc (some mn)))
      (setAllFlag ns DONT_UPDATE_ESTIMATE) from rfl]
  rw [flagSetAt, hmain]
  have hneed : neededForEstimates ns marg a b j =
      (List.range' a (b - a)).any (fun f =>
        match marg.getD f none with
        | none => false
        | some mn => decide (j ∈ ancestorChain ns.length ns (some mn))) := rfl
  rw [← hneed]
  cases hlj : lookupNode ns j with
  | none => simp [hlj]
  | some r =>
    cases hn : neededForEstimates ns marg a b j with
    | false => simp [hlj, hn, lor_land_self, DONT_UPDATE_ESTIMATE]
    | true => simp [hlj, hn, clearStatus_land]

/-! ## Move try/undo (spec-modelled)

The bodies of TmTreemap::Move::tryIt and Move::undoIt are not under src;
only their declarations and doc comments are.  The move mechanics are
modelled from the specification.  The state is split into a topology
arena (parent and child links per slot) and a parallel status arena —
the same information as one record arena, but the split lets the flag
bookkeeping of tryIt and undoIt act independently of the relink.  The
floating-point cost member of Move is irrelevant to the topology claim
and omitted. -/

/-- Topology record of one node: parent link and the two child links
(none for a leaf). -/
structure TNode where
  parent : Option Nat
  children : Option (Nat × Nat)
deriving DecidableEq, Repr

/-- State a move operates on: topology arena, status-word arena and the
root index. -/
structure MoveSt where
  node : List (Option TNode)
  status : List Nat
  root : Option Nat
deriving DecidableEq, Repr

/-- A move of the subtree below one node to above another node, together
with the undo information oldAbove and whichChild. -/
structure MoveM where
  subtree : Nat
  above : Option Nat
  oldAbove : Option Nat
  whichChild : Nat
  join : Bool
deriving DecidableEq, Repr

/-- Reading topology slot i. -/
def lookupT (ns : List (Option TNode)) (i : Nat) : Option TNode :=
  ns.getD i none

/-- Overwriting topology slot i. -/
def setT (ns : List (Option TNode)) (i : Nat) (r : TNode) :
    List (Option TNode) :=
  ns.set i (some r)

/-- The other child of a pair: the sibling of s. -/
def otherChild (c : Nat × Nat) (s : Nat) : Nat :=
  if c.1 = s then c.2 else c.1

/-- Which child slot s occupies. -/
def childIdx (c : Nat × Nat) (s : Nat) : Nat :=
  if c.1 = s then 0 else 1

/-- Replacing one child link by another. -/
def replaceChild (c : Nat × Nat) (a b : Nat) : Nat × Nat :=
  if c.1 = a then (b, c.2) else if c.2 = a then (c.1, b) else c

/-- The child pair with s at slot wc and the other node at the other
slot. -/
def mkChildren (wc s other : Nat) : Nat × Nat :=
  if wc = 0 then (s, other) else (other, s)

/-- Modelled from the spec: the common relink of tryIt and undoIt.  The
parent p of s is detached — the sibling of s takes the place of p — and
reattached above target: target becomes the sibling of s below p, with s
kept at child slot wc.  When p was the root its old sibling becomes root;
when target was the root p becomes root. -/
def relocate (st : MoveSt) (s target wc : Nat) : MoveSt :=
  match lookupT st.node s with
  | none => st
  | some sres =>
  match sres.parent with
  | none => st
  | some p =>
  match lookupT st.node p with
  | none => st
  | some pres =>
  match pres.children with
  | none => st
  | some c =>
    let x := otherChild c s
    let st1 :=
      match lookupT st.node x with
      | none => st
      | some xres =>
        { st with node := setT st.node x { xres with parent := pres.parent } }
    let st2 :=
      match pres.parent with
      | none => { st1 with root := some x }
      | some g =>
        match lookupT st1.node g with
        | none => st1
        | some gres =>
          let gres2 : TNode := { gres with children := Option.map (fun cc => replaceChild cc p x) gres.children }
          { st1 with node := setT st1.node g gres2 }
    match lookupT st2.node target with
    | none => st2
    | some tres =>
      let tres2 : TNode := { tres with parent := some p }
      let pres2 : TNode := { parent := tres.parent, children := some (mkChildren wc s target) }
      let st3 := { st2 with node := setT st2.node target tres2 }
      let st4 := { st3 with node := setT st3.node p pres2 }
      match tres.parent with
      | none => { st4 with root := some p }
      | some ga =>
        match lookupT st4.node ga with
        | none => st4
        | some gares =>
          let gares2 : TNode := { gares with children := Option.map (fun cc => replaceChild cc target p) gares.children }
          { st4 with node := setT st4.node ga gares2 }

/-- The ancestor chain in the topology arena. -/
def ancestorChainT : Nat → List (Option TNode) → Option Nat → List Nat
  | 0, _, _ => []
  | _ + 1, _, none => []
  | fuel + 1, ns, some i =>
    match lookupT ns i with
    | none => []
    | some r => i :: ancestorChainT fuel ns r.parent

/-- Clearing mask bits of one status slot. -/
def clearStatusBits (sts : List Nat) (i mask : Nat) : List Nat :=
  sts.set i (Nat.ldiff (sts.getD i 0) mask)

/-- Setting mask bits of one status slot. -/
def setStatusBits (sts : List Nat) (i mask : Nat) : List Nat :=
  sts.set i (sts.getD i 0 ||| mask)

/-- Clearing mask bits along a list of slots. -/
def clearAlongChain (sts : List Nat) (mask : Nat) (chain : List Nat) :
    List Nat :=
  chain.foldl (fun acc j => acc.set j (Nat.ldiff (acc.getD j 0) mask)) sts

/-- Modelled from the spec: the body of Move::tryIt is missing from src.
For a non-join move with a target, the subtree is relinked by relocate;
IS_FEATURE_PASSED_VALID is cleared on the path from the moved node up to
the root of the affected region, IS_GAUSSIAN_VALID is deliberately left
untouched, and CAN_BE_MOVED is reset on the moved node.  oldAbove and
whichChild are recorded in the move for the exact undo. -/
def tryIt (st : MoveSt) (m : MoveM) : MoveSt × MoveM :=
  if m.join then (st, m) else
  match m.above with
  | none => (st, m)
  | some a =>
    match lookupT st.node m.subtree with
    | none => (st, m)
    | some sres =>
    match sres.parent with
    | none => (st, m)
    | some p =>
    match lookupT st.node p with
    | none => (st, m)
    | some pres =>
    match pres.children with
    | none => (st, m)
    | some c =>
      let wc := childIdx c m.subtree
      let sib := otherChild c m.subtree
      let m' := { m with oldAbove := some sib, whichChild := wc }
      let st' := relocate st m.subtree a wc
      let sts :=
        clearAlongChain (clearStatusBits st'.status m.subtree CAN_BE_MOVED)
          IS_FEATURE_PASSED_VALID
          (ancestorChainT st'.node.length st'.node (some m.subtree))
      ({ st' with status := sts }, m')

/-- Modelled from the spec: the body of Move::undoIt is missing from src.
The subtree is relinked back above oldAbove at the recorded child slot,
the feature-passed caches along the restored path are invalid again,
IS_GAUSSIAN_VALID is untouched, and CAN_BE_MOVED is set again on the
moved node. -/
def undoIt (st : MoveSt) (m : MoveM) : MoveSt :=
  match m.oldAbove with
  | none => st
  | some sib =>
    let st' := relocate st m.subtree sib m.whichChild
    let sts :=
      clearAlongChain (setStatusBits st'.status m.subtree CAN_BE_MOVED)
        IS_FEATURE_PASSED_VALID
        (ancestorChainT st'.node.length st'.node (some m.subtree))
    { st' with status := sts }

/-- Decidable well-formedness of a move configuration: the moved node s
has a parent p with two distinct children, the sibling points back at p,
s is not moved above itself, its parent or its own position, the
grandparent (when present) is a distinct node listing p once with the
other slot not the sibling (when absent p is the root), and unless the
target a is the sibling itself, a exists and its parent (when present)
is outside the moved subtree, lists a once, and lists p only when it is
at the same time the grandparent of s; when a has no parent it is the
root.  The sibling itself, a child of the sibling, and the other child
of the grandparent are all admitted as targets. -/
def relocateOkB (st : MoveSt) (s a : Nat) : Bool :=
  match lookupT st.node s with
  | none => false
  | some sres =>
  match sres.parent with
  | none => false
  | some p =>
  match lookupT st.node p with
  | none => false
  | some pres =>
  match pres.children with
  | none => false
  | some c =>
    let sib := otherChild c s
    (decide (c.1 = s ∨ c.2 = s)) && (c.1 != c.2) &&
    (match lookupT st.node sib with
     | none => false
     | some sibres => sibres.parent == some p) &&
    (s != p) && (s != sib) && (s != a) && (p != sib) && (p != a) &&
    (match pres.parent with
     | none => st.root == some p
     | some gp =>
       (gp != s) && (gp != p) && (gp != sib) && (gp != a) &&
       (match lookupT st.node gp with
        | none => false
        | some gres =>
          match gres.children with
          | none => false
          | some gc =>
            (decide (gc.1 = p ∨ gc.2 = p)) && (gc.1 != gc.2) &&
            (gc.1 != sib) && (gc.2 != sib))) &&
    (if a = sib then true
     else
       match lookupT st.node a with
       | none => false
       | some ares =>
         match ares.parent with
         | none => st.root == some a
         | some gq =>
           (gq != s) && (gq != p) && (gq != a) &&
           (match lookupT st.node gq with
            | none => false
            | some gares =>
              match gares.children with
              | none => false
              | some gac =>
                (decide (gac.1 = a ∨ gac.2 = a)) && (gac.1 != gac.2) &&
                (decide (gac.1 = p → pres.parent = some gq)) &&
                (decide (gac.2 = p → pres.parent = some gq))))

theorem lookupT_eq (ns : List (Option TNode)) (i : Nat) :
    lookupT ns i = (ns[i]?).getD none := by
  simp [lookupT, List.getD_eq_getElem?_getD]

theorem lookupT_some_lt {ns : List (Option TNode)} {i : Nat} {r : TNode}
    (h : lookupT ns i = some r) : i < ns.length := by
  rw [lookupT_eq] at h
  cases hg : ns[i]? with
  | none => rw [hg] at h; simp at h
  | some o => rw [List.getElem?_eq_some] at hg; exact hg.1

theorem lookupT_set_self {ns : List (Option TNode)} {i : Nat} (r : TNode)
    (h : i < ns.length) : lookupT (setT ns i r) i = some r := by
  simp [lookupT_eq, setT, List.getElem?_set_self h]

theorem lookupT_set_ne {ns : List (Option TNode)} {i j : Nat} (r : TNode)
    (h : i ≠ j) : lookupT (setT ns i r) j = lookupT ns j := by
  simp [lookupT_eq, setT, List.getElem?_set_ne h]

theorem setT_length (ns : List (Option TNode)) (i : Nat) (r : TNode) :
    (setT ns i r).length = ns.length := by
  simp [setT]

theorem otherChild_mkChildren (wc s t : Nat) (h : t ≠ s) :
    otherChild (mkChildren wc s t) s = t := by
  cases wc with
  | zero => simp [mkChildren, otherChild]
  | succ n => simp [mkChildren, otherChild, h]

theorem mkChildren_childIdx (c : Nat × Nat) (s : Nat)
    (hcs : c.1 = s ∨ c.2 = s) (hc12 : c.1 ≠ c.2) :
    mkChildren (childIdx c s) s (otherChild c s) = c := by
  by_cases h1 : c.1 = s
  · simp only [childIdx, otherChild, mkChildren, h1, if_pos rfl]
    rw [← h1]
    exact Prod.mk.eta
  · rcases hcs with h | h
    · exact absurd h h1
    · simp only [childIdx, otherChild, mkChildren, h1, if_false,
        if_neg h1]
      rw [← h]
      exact Prod.mk.eta

theorem replaceChild_roundtrip (c : Nat × Nat) (a b : Nat)
    (ha : c.1 = a ∨ c.2 = a) (h12 : c.1 ≠ c.2)
    (hb1 : c.1 ≠ b) (hb2 : c.2 ≠ b) :
    replaceChild (replaceChild c a b) b a = c := by
  by_cases h1 : c.1 = a
  · have hin : replaceChild c a b = (b, c.2) := by
      simp [replaceChild, h1]
    have hout : replaceChild (b, c.2) b a = (a, c.2) := by
      simp [replaceChild]
    rw [hin, hout, ← h1]
  · rcases ha with h | h
    · exact absurd h h1
    · have hin : replaceChild c a b = (c.1, b) := by
        simp [replaceChild, h1, h]
      have hout : replaceChild (c.1, b) b a = (c.1, a) := by
        simp [replaceChild, hb1]
      rw [hin, hout, ← h]

theorem ldiff_land_of_disjoint (x b m : Nat) (h : b &&& m = 0) :
    Nat.ldiff x b &&& m = x &&& m := by
  apply Nat.eq_of_testBit_eq
  intro k
  rw [Nat.testBit_and, Nat.testBit_and, Nat.testBit_ldiff]
  have hb := congrArg (fun t => t.testBit k) h
  simp only [Nat.testBit_and, Nat.zero_testBit] at hb
  cases hm : m.testBit k with
  | false => simp
  | true =>
    rw [hm] at hb
    simp only [Bool.and_true] at hb
    simp [hb]

theorem lor_land_of_disjoint (x b m : Nat) (h : b &&& m = 0) :
    (x ||| b) &&& m = x &&& m := by
  apply Nat.eq_of_testBit_eq
  intro k
  rw [Nat.testBit_and, Nat.testBit_and, Nat.testBit_or]
  have hb := congrArg (fun t => t.testBit k) h
  simp only [Nat.testBit_and, Nat.zero_testBit] at hb
  cases hm : m.testBit k with
  | false => simp
  | true =>
    rw [hm] at hb
    simp only [Bool.and_true] at hb
    simp [hb]

theorem getD_set_land (sts : List Nat) (i v j m : Nat)
    (hv : v &&& m = sts.getD i 0 &&& m) :
    (sts.set i v).getD j 0 &&& m = sts.getD j 0 &&& m := by
  rcases Nat.lt_or_ge i sts.length with hi | hi
  · by_cases hij : i = j
    · subst hij
      rw [List.getD_eq_getElem?_getD, List.getElem?_set_self hi]
      simpa using hv
    · rw [List.getD_eq_getElem?_getD, List.getElem?_set_ne hij,
        ← List.getD_eq_getElem?_getD]
  · rw [List.set_eq_of_length_le hi]

theorem clearAlongChain_land (chain : List Nat) (sts : List Nat)
    (mask m : Nat) (hdis : mask &&& m = 0) (j : Nat) :
    (clearAlongChain sts mask chain).getD j 0 &&& m =
      sts.getD j 0 &&& m := by
  induction chain generalizing sts with
  | nil => rfl
  | cons c cs ih =>
    rw [show clearAlongChain sts mask (c :: cs) =
        clearAlongChain (sts.set c (Nat.ldiff (sts.getD c 0) mask))
          mask cs from rfl]
    rw [ih]
    exact getD_set_land sts c _ j m (ldiff_land_of_disjoint _ _ _ hdis)

theorem clearStatusBits_land (sts : List Nat) (i mask m : Nat)
    (hdis : mask &&& m = 0) (j : Nat) :
    (clearStatusBits sts i mask).getD j 0 &&& m = sts.getD j 0 &&& m :=
  getD_set_land sts i _ j m (ldiff_land_of_disjoint _ _ _ hdis)

theorem setStatusBits_land (sts : List Nat) (i mask m : Nat)
    (hdis : mask &&& m = 0) (j : Nat) :
    (setStatusBits sts i mask).getD j 0 &&& m = sts.getD j 0 &&& m :=
  getD_set_land sts i _ j m (lor_land_of_disjoint _ _ _ hdis)



theorem relocate_roundtrip (st : MoveSt) (s p a : Nat)
    (sres pres sibres ares : TNode) (c : Nat × Nat)
    (hs : lookupT st.node s = some sres)
    (hsp : sres.parent = some p)
    (hp : lookupT st.node p = some pres)
    (hpc : pres.children = some c)
    (hcs : c.1 = s ∨ c.2 = s)
    (hc12 : c.1 ≠ c.2)
    (hsib : lookupT st.node (otherChild c s) = some sibres)
    (hsibp : sibres.parent = some p)
    (hA : lookupT st.node a = some ares)
    (hsp2 : s ≠ p) (hssb : s ≠ otherChild c s) (hsa : s ≠ a)
    (hpsb : p ≠ otherChild c s) (hpa : p ≠ a) (hsba : otherChild c s ≠ a)
    (hgnone : pres.parent = none → st.root = some p)
    (hgsome : ∀ gp, pres.parent = some gp →
      gp ≠ s ∧ gp ≠ p ∧ gp ≠ otherChild c s ∧ gp ≠ a ∧
      ∃ gres gc, lookupT st.node gp = some gres ∧
        gres.children = some gc ∧ (gc.1 = p ∨ gc.2 = p) ∧ gc.1 ≠ gc.2 ∧
        gc.1 ≠ otherChild c s ∧ gc.2 ≠ otherChild c s)
    (hganone : ares.parent = none → st.root = some a)
    (hgasome : ∀ gq, ares.parent = some gq →
      gq ≠ s ∧ gq ≠ p ∧ gq ≠ otherChild c s ∧ gq ≠ a ∧
      (∀ gp, pres.parent = some gp → gp ≠ gq) ∧
      ∃ gares gac, lookupT st.node gq = some gares ∧
        gares.children = some gac ∧ (gac.1 = a ∨ gac.2 = a) ∧
        gac.1 ≠ gac.2 ∧ gac.1 ≠ p ∧ gac.2 ≠ p)
    (sts' : List Nat) :
    (∀ j, lookupT (relocate
        ⟨(relocate st s a (childIdx c s)).node, sts',
          (relocate st s a (childIdx c s)).root⟩ s (otherChild c s)
        (childIdx c s)).node j = lookupT st.node j) ∧
    (relocate ⟨(relocate st s a (childIdx c s)).node, sts',
        (relocate st s a (childIdx c s)).root⟩ s (otherChild c s)
        (childIdx c s)).root = st.root := by
  cases hg : pres.parent with
  | none =>
    cases hga : ares.parent with
    | none =>
      have h1 := hgnone hg
      have h2 := hganone hga
      rw [h1] at h2
      exact absurd (Option.some_inj.mp h2) hpa
    | some gq =>
      obtain ⟨hgq_s, hgq_p, hgq_sb, hgq_a, _, hgaq⟩ := hgasome gq hga
      obtain ⟨gares, gac, hgares, hgacc, hgaca, hgac12, hgac1p, hgac2p⟩ := hgaq
      have hroot := hgnone hg
      have e8 : lookupT (setT st.node (otherChild c s)
          { sibres with parent := none }) a = some ares := by
        rw [lookupT_set_ne _ hsba]
        exact hA
      have hmap2 : Option.map (fun cc => replaceChild cc a p)
          gares.children = some (replaceChild gac a p) := by
        rw [hgacc]
        rfl
      have e11 : lookupT (setT (setT (setT st.node (otherChild c s)
          { sibres with parent := none }) a { ares with parent := some p }) p
          (⟨some gq, some (mkChildren (childIdx c s) s a)⟩ : TNode)) gq =
          some gares := by
        rw [lookupT_set_ne _ (Ne.symm hgq_p), lookupT_set_ne _ (Ne.symm hgq_a),
          lookupT_set_ne _ (Ne.symm hgq_sb)]
        exact hgares
      have hTn : (relocate st s a (childIdx c s)).node =
          setT (setT (setT (setT st.node (otherChild c s)
            { sibres with parent := none }) a { ares with parent := some p })
            p (⟨some gq, some (mkChildren (childIdx c s) s a)⟩ : TNode)) gq
            { gares with children := some (replaceChild gac a p) } := by
        simp only [relocate, hs, hsp, hp, hpc, hg, hga, hsib, e8, e11, hmap2]
      have hTr : (relocate st s a (childIdx c s)).root =
          some (otherChild c s) := by
        simp only [relocate, hs, hsp, hp, hpc, hg, hga, hsib, e8, e11, hmap2]
      rw [hTn, hTr]
      set N := setT (setT (setT (setT st.node (otherChild c s)
        { sibres with parent := none }) a { ares with parent := some p })
        p (⟨some gq, some (mkChildren (childIdx c s) s a)⟩ : TNode)) gq
        { gares with children := some (replaceChild gac a p) } with hN
      have hlenN : N.length = st.node.length := by
        rw [hN]
        simp only [setT_length]
      have u1 : lookupT N s = some sres := by
        rw [hN, lookupT_set_ne _ hgq_s, lookupT_set_ne _ (Ne.symm hsp2),
          lookupT_set_ne _ (Ne.symm hsa), lookupT_set_ne _ (Ne.symm hssb)]
        exact hs
      have u3 : lookupT N p =
          some (⟨some gq, some (mkChildren (childIdx c s) s a)⟩ : TNode) := by
        rw [hN, lookupT_set_ne _ hgq_p]
        exact lookupT_set_self _
          (by simp only [setT_length]; exact lookupT_some_lt hp)
      have u6 : lookupT N a = some { ares with parent := some p } := by
        rw [hN, lookupT_set_ne _ hgq_a, lookupT_set_ne _ hpa]
        exact lookupT_set_self _
          (by simp only [setT_length]; exact lookupT_some_lt hA)
      have u7 : lookupT (setT N a ares) gq =
          some { gares with children := some (replaceChild gac a p) } := by
        rw [lookupT_set_ne _ (Ne.symm hgq_a), hN]
        exact lookupT_set_self _
          (by simp only [setT_length]; exact lookupT_some_lt hgares)
      have u8 : lookupT (setT (setT N a ares) gq gares) (otherChild c s) =
          some { sibres with parent := none } := by
        rw [lookupT_set_ne _ hgq_sb, lookupT_set_ne _ (Ne.symm hsba), hN,
          lookupT_set_ne _ hgq_sb, lookupT_set_ne _ hpsb,
          lookupT_set_ne _ (Ne.symm hsba)]
        exact lookupT_set_self _ (lookupT_some_lt hsib)
      have hrc1 : replaceChild (replaceChild gac a p) p a = gac :=
        replaceChild_roundtrip gac a p hgaca hgac12 hgac1p hgac2p
      have hmkc : mkChildren (childIdx c s) s (otherChild c s) = c :=
        mkChildren_childIdx c s hcs hc12
      have hx2 : otherChild (mkChildren (childIdx c s) s a) s = a :=
        otherChild_mkChildren _ _ _ (Ne.symm hsa)
      have hmap3 : Option.map (fun cc => replaceChild cc p a)
          (some (replaceChild gac a p)) = some gac := by
        simp only [Option.map, hrc1]
      have hares_eta : ({ ares with parent := some gq } : TNode) = ares := by
        rw [← hga]
      have hsib_eta : ({ sibres with parent := some p } : TNode) = sibres := by
        rw [← hsibp]
      have hpres_eta : (⟨none, some c⟩ : TNode) = pres := by
        rw [← hg, ← hpc]
      have hgares_eta : ({ gares with children := some gac } : TNode) =
          gares := by
        rw [← hgacc]
      have hUn : (relocate ⟨N, sts', some (otherChild c s)⟩ s (otherChild c s)
          (childIdx c s)).node =
          setT (setT (setT (setT N a ares) gq gares)
            (otherChild c s) sibres) p pres := by
        simp only [relocate, u1, hsp, u3, hx2, u6, hga, hares_eta, u7, hmap3,
          hgares_eta, u8, hsib_eta, hmkc, hpres_eta]
      have hUr : (relocate ⟨N, sts', some (otherChild c s)⟩ s (otherChild c s)
          (childIdx c s)).root = st.root := by
        rw [hroot]
        simp only [relocate, u1, hsp, u3, hx2, u6, hga, hares_eta, u7, hmap3,
          hgares_eta, u8, hsib_eta, hmkc, hpres_eta]
      refine ⟨?_, hUr⟩
      intro j
      rw [hUn]
      by_cases hjp : j = p
      · subst hjp
        rw [lookupT_set_self pres (by
          simp only [setT_length]
          rw [hlenN]
          exact lookupT_some_lt hp)]
        exact hp.symm
      · rw [lookupT_set_ne _ fun he => hjp he.symm]
        by_cases hjsb : j = otherChild c s
        · subst hjsb
          rw [lookupT_set_self sibres (by
            simp only [setT_length]
            rw [hlenN]
            exact lookupT_some_lt hsib)]
          exact hsib.symm
        · rw [lookupT_set_ne _ fun he => hjsb he.symm]
          by_cases hjgq : j = gq
          · subst hjgq
            rw [lookupT_set_self gares (by
              simp only [setT_length]
              rw [hlenN]
              exact lookupT_some_lt hgares)]
            exact hgares.symm
          · rw [lookupT_set_ne _ fun he => hjgq he.symm]
            by_cases hja : j = a
            · subst hja
              rw [lookupT_set_self ares (by
                rw [hlenN]
                exact lookupT_some_lt hA)]
              exact hA.symm
            · rw [lookupT_set_ne _ fun he => hja he.symm, hN,
                lookupT_set_ne _ fun he => hjgq he.symm,
                lookupT_set_ne _ fun he => hjp he.symm,
                lookupT_set_ne _ fun he => hja he.symm,
                lookupT_set_ne _ fun he => hjsb he.symm]
  | some gp =>
    cases hga : ares.parent with
    | none =>
      obtain ⟨hgp_s, hgp_p, hgp_sb, hgp_a, hgc⟩ := hgsome gp hg
      obtain ⟨gres, gc, hgres, hgcc, hgcp, hgc12, hgc1sb, hgc2sb⟩ := hgc
      have hroot := hganone hga
      have e7 : lookupT (setT st.node (otherChild c s)
          { sibres with parent := some gp }) gp = some gres := by
        rw [lookupT_set_ne _ (Ne.symm hgp_sb)]
        exact hgres
      have hmap1 : Option.map (fun cc => replaceChild cc p (otherChild c s))
          gres.children = some (replaceChild gc p (otherChild c s)) := by
        rw [hgcc]
        rfl
      have e8 : lookupT (setT (setT st.node (otherChild c s)
          { sibres with parent := some gp }) gp
          { gres with children := some (replaceChild gc p (otherChild c s)) })
          a = some ares := by
        rw [lookupT_set_ne _ hgp_a, lookupT_set_ne _ hsba]
        exact hA
      have hTn : (relocate st s a (childIdx c s)).node =
          setT (setT (setT (setT st.node (otherChild c s)
            { sibres with parent := some gp }) gp
            { gres with children := some (replaceChild gc p (otherChild c s)) })
            a { ares with parent := some p }) p
            (⟨none, some (mkChildren (childIdx c s) s a)⟩ : TNode) := by
        simp only [relocate, hs, hsp, hp, hpc, hg, hga, hsib, e7, hmap1, e8]
      have hTr : (relocate st s a (childIdx c s)).root = some p := by
        simp only [relocate, hs, hsp, hp, hpc, hg, hga, hsib, e7, hmap1, e8]
      rw [hTn, hTr]
      set N := setT (setT (setT (setT st.node (otherChild c s)
        { sibres with parent := some gp }) gp
        { gres with children := some (replaceChild gc p (otherChild c s)) })
        a { ares with parent := some p }) p
        (⟨none, some (mkChildren (childIdx c s) s a)⟩ : TNode) with hN
      have hlenN : N.length = st.node.length := by
        rw [hN]
        simp only [setT_length]
      have u1 : lookupT N s = some sres := by
        rw [hN, lookupT_set_ne _ (Ne.symm hsp2),
          lookupT_set_ne _ (Ne.symm hsa), lookupT_set_ne _ hgp_s,
          lookupT_set_ne _ (Ne.symm hssb)]
        exact hs
      have u3 : lookupT N p =
          some (⟨none, some (mkChildren (childIdx c s) s a)⟩ : TNode) := by
        rw [hN]
        exact lookupT_set_self _
          (by simp only [setT_length]; exact lookupT_some_lt hp)
      have u6 : lookupT N a = some { ares with parent := some p } := by
        rw [hN, lookupT_set_ne _ hpa]
        exact lookupT_set_self _
          (by simp only [setT_length]; exact lookupT_some_lt hA)
      have u8 : lookupT (setT N a ares) (otherChild c s) =
          some { sibres with parent := some gp } := by
        rw [lookupT_set_ne _ (Ne.symm hsba), hN,
          lookupT_set_ne _ hpsb, lookupT_set_ne _ (Ne.symm hsba),
          lookupT_set_ne _ hgp_sb]
        exact lookupT_set_self _ (lookupT_some_lt hsib)
      have u9 : lookupT (setT (setT (setT N a ares)
          (otherChild c s) sibres) p pres) gp =
          some { gres with
            children := some (replaceChild gc p (otherChild c s)) } := by
        rw [lookupT_set_ne _ (Ne.symm hgp_p), lookupT_set_ne _ (Ne.symm hgp_sb),
          lookupT_set_ne _ (Ne.symm hgp_a), hN,
          lookupT_set_ne _ (Ne.symm hgp_p), lookupT_set_ne _ (Ne.symm hgp_a)]
        exact lookupT_set_self _
          (by simp only [setT_length]; exact lookupT_some_lt hgres)
      have hrc2 : replaceChild (replaceChild gc p (otherChild c s))
          (otherChild c s) p = gc :=
        replaceChild_roundtrip gc p (otherChild c s) hgcp hgc12 hgc1sb hgc2sb
      have hmkc : mkChildren (childIdx c s) s (otherChild c s) = c :=
        mkChildren_childIdx c s hcs hc12
      have hx2 : otherChild (mkChildren (childIdx c s) s a) s = a :=
        otherChild_mkChildren _ _ _ (Ne.symm hsa)
      have hmap4 : Option.map (fun cc => replaceChild cc (otherChild c s) p)
          (some (replaceChild gc p (otherChild c s))) = some gc := by
        simp only [Option.map, hrc2]
      have hares_eta : ({ ares with parent := none } : TNode) = ares := by
        rw [← hga]
      have hsib_eta : ({ sibres with parent := some p } : TNode) = sibres := by
        rw [← hsibp]
      have hpres_eta : (⟨some gp, some c⟩ : TNode) = pres := by
        rw [← hg, ← hpc]
      have hgres_eta : ({ gres with children := some gc } : TNode) = gres := by
        rw [← hgcc]
      have hUn : (relocate ⟨N, sts', some p⟩ s (otherChild c s)
          (childIdx c s)).node =
          setT (setT (setT (setT N a ares) (otherChild c s) sibres) p pres)
            gp gres := by
        simp only [relocate, u1, hsp, u3, hx2, u6, hares_eta, u8, hsib_eta,
          hmkc, hpres_eta, u9, hmap4, hgres_eta]
      have hUr : (relocate ⟨N, sts', some p⟩ s (otherChild c s)
          (childIdx c s)).root = st.root := by
        rw [hroot]
        simp only [relocate, u1, hsp, u3, hx2, u6, hares_eta, u8, hsib_eta,
          hmkc, hpres_eta, u9, hmap4, hgres_eta]
      refine ⟨?_, hUr⟩
      intro j
      rw [hUn]
      by_cases hjgp : j = gp
      · subst hjgp
        rw [lookupT_set_self gres (by
          simp only [setT_length]
          rw [hlenN]
          exact lookupT_some_lt hgres)]
        exact hgres.symm
      · rw [lookupT_set_ne _ fun he => hjgp he.symm]
        by_cases hjp : j = p
        · subst hjp
          rw [lookupT_set_self pres (by
            simp only [setT_length]
            rw [hlenN]
            exact lookupT_some_lt hp)]
          exact hp.symm
        · rw [lookupT_set_ne _ fun he => hjp he.symm]
          by_cases hjsb : j = otherChild c s
          · subst hjsb
            rw [lookupT_set_self sibres (by
              simp only [setT_length]
              rw [hlenN]
              exact lookupT_some_lt hsib)]
            exact hsib.symm
          · rw [lookupT_set_ne _ fun he => hjsb he.symm]
            by_cases hja : j = a
            · subst hja
              rw [lookupT_set_self ares (by
                rw [hlenN]
                exact lookupT_some_lt hA)]
              exact hA.symm
            · rw [lookupT_set_ne _ fun he => hja he.symm, hN,
                lookupT_set_ne _ fun he => hjp he.symm,
                lookupT_set_ne _ fun he => hja he.symm,
                lookupT_set_ne _ fun he => hjgp he.symm,
                lookupT_set_ne _ fun he => hjsb he.symm]
    | some gq =>
      obtain ⟨hgp_s, hgp_p, hgp_sb, hgp_a, hgc⟩ := hgsome gp hg
      obtain ⟨gres, gc, hgres, hgcc, hgcp, hgc12, hgc1sb, hgc2sb⟩ := hgc
      obtain ⟨hgq_s, hgq_p, hgq_sb, hgq_a, hgpgq, hgaq⟩ := hgasome gq hga
      obtain ⟨gares, gac, hgares, hgacc, hgaca, hgac12, hgac1p, hgac2p⟩ := hgaq
      have hgpgq2 : gp ≠ gq := hgpgq gp hg
      -- first relocate
      have e7 : lookupT (setT st.node (otherChild c s)
          { sibres with parent := some gp }) gp = some gres := by
        rw [lookupT_set_ne _ (Ne.symm hgp_sb)]
        exact hgres
      have hmap1 : Option.map (fun cc => replaceChild cc p (otherChild c s))
          gres.children = some (replaceChild gc p (otherChild c s)) := by
        rw [hgcc]
        rfl
      have hmap2 : Option.map (fun cc => replaceChild cc a p)
          gares.children = some (replaceChild gac a p) := by
        rw [hgacc]
        rfl
      have e8 : lookupT (setT (setT st.node (otherChild c s)
          { sibres with parent := some gp }) gp
          { gres with children := some (replaceChild gc p (otherChild c s)) })
          a = some ares := by
        rw [lookupT_set_ne _ hgp_a, lookupT_set_ne _ hsba]
        exact hA
      have e11 : lookupT (setT (setT (setT (setT st.node (otherChild c s)
          { sibres with parent := some gp }) gp
          { gres with children := some (replaceChild gc p (otherChild c s)) })
          a { ares with parent := some p }) p
          (⟨some gq, some (mkChildren (childIdx c s) s a)⟩ : TNode)) gq =
          some gares := by
        rw [lookupT_set_ne _ (Ne.symm hgq_p), lookupT_set_ne _ (Ne.symm hgq_a),
          lookupT_set_ne _ hgpgq2, lookupT_set_ne _ (Ne.symm hgq_sb)]
        exact hgares
      have hTn : (relocate st s a (childIdx c s)).node =
          setT (setT (setT (setT (setT st.node (otherChild c s)
            { sibres with parent := some gp }) gp
            { gres with children := some (replaceChild gc p (otherChild c s)) })
            a { ares with parent := some p }) p
            (⟨some gq, some (mkChildren (childIdx c s) s a)⟩ : TNode)) gq
            { gares with children := some (replaceChild gac a p) } := by
        simp only [relocate, hs, hsp, hp, hpc, hg, hga, hsib, e7, hmap1, e8,
          e11, hmap2]
      have hTr : (relocate st s a (childIdx c s)).root = st.root := by
        simp only [relocate, hs, hsp, hp, hpc, hg, hga, hsib, e7, hmap1, e8,
          e11, hmap2]
      rw [hTn, hTr]
      set N := setT (setT (setT (setT (setT st.node (otherChild c s)
        { sibres with parent := some gp }) gp
        { gres with children := some (replaceChild gc p (otherChild c s)) })
        a { ares with parent := some p }) p
        (⟨some gq, some (mkChildren (childIdx c s) s a)⟩ : TNode)) gq
        { gares with children := some (replaceChild gac a p) } with hN
      have hlenN : N.length = st.node.length := by
        rw [hN]
        simp only [setT_length]
      have u1 : lookupT N s = some sres := by
        rw [hN, lookupT_set_ne _ hgq_s, lookupT_set_ne _ (Ne.symm hsp2),
          lookupT_set_ne _ (Ne.symm hsa), lookupT_set_ne _ hgp_s,
          lookupT_set_ne _ (Ne.symm hssb)]
        exact hs
      have u3 : lookupT N p =
          some (⟨some gq, some (mkChildren (childIdx c s) s a)⟩ : TNode) := by
        rw [hN, lookupT_set_ne _ hgq_p]
        exact lookupT_set_self _
          (by simp only [setT_length]; exact lookupT_some_lt hp)
      have u6 : lookupT N a = some { ares with parent := some p } := by
        rw [hN, lookupT_set_ne _ hgq_a, lookupT_set_ne _ hpa]
        exact lookupT_set_self _
          (by simp only [setT_length]; exact lookupT_some_lt hA)
      have u7 : lookupT (setT N a ares) gq =
          some { gares with children := some (replaceChild gac a p) } := by
        rw [lookupT_set_ne _ (Ne.symm hgq_a), hN]
        exact lookupT_set_self _
          (by simp only [setT_length]; exact lookupT_some_lt hgares)
      have u8 : lookupT (setT (setT N a ares) gq gares) (otherChild c s) =
          some { sibres with parent := some gp } := by
        rw [lookupT_set_ne _ hgq_sb, lookupT_set_ne _ (Ne.symm hsba), hN,
          lookupT_set_ne _ hgq_sb, lookupT_set_ne _ hpsb,
          lookupT_set_ne _ (Ne.symm hsba), lookupT_set_ne _ hgp_sb]
        exact lookupT_set_self _ (lookupT_some_lt hsib)
      have u9 : lookupT (setT (setT (setT (setT N a ares) gq gares)
          (otherChild c s) sibres) p pres) gp =
          some { gres with
            children := some (replaceChild gc p (otherChild c s)) } := by
        rw [lookupT_set_ne _ (Ne.symm hgp_p), lookupT_set_ne _ (Ne.symm hgp_sb),
          lookupT_set_ne _ (Ne.symm hgpgq2), lookupT_set_ne _ (Ne.symm hgp_a),
          hN, lookupT_set_ne _ (Ne.symm hgpgq2),
          lookupT_set_ne _ (Ne.symm hgp_p), lookupT_set_ne _ (Ne.symm hgp_a)]
        exact lookupT_set_self _
          (by simp only [setT_length]; exact lookupT_some_lt hgres)
      have hrc1 : replaceChild (replaceChild gac a p) p a = gac :=
        replaceChild_roundtrip gac a p hgaca hgac12 hgac1p hgac2p
      have hrc2 : replaceChild (replaceChild gc p (otherChild c s))
          (otherChild c s) p = gc :=
        replaceChild_roundtrip gc p (otherChild c s) hgcp hgc12 hgc1sb hgc2sb
      have hmkc : mkChildren (childIdx c s) s (otherChild c s) = c :=
        mkChildren_childIdx c s hcs hc12
      have hx2 : otherChild (mkChildren (childIdx c s) s a) s = a :=
        otherChild_mkChildren _ _ _ (Ne.symm hsa)
      have hmap3 : Option.map (fun cc => replaceChild cc p a)
          (some (replaceChild gac a p)) = some gac := by
        simp only [Option.map, hrc1]
      have hmap4 : Option.map (fun cc => replaceChild cc (otherChild c s) p)
          (some (replaceChild gc p (otherChild c s))) = some gc := by
        simp only [Option.map, hrc2]
      have hares_eta : ({ ares with parent := some gq } : TNode) = ares := by
        rw [← hga]
      have hsib_eta : ({ sibres with parent := some p } : TNode) = sibres := by
        rw [← hsibp]
      have hpres_eta : (⟨some gp, some c⟩ : TNode) = pres := by
        rw [← hg, ← hpc]
      have hgares_eta : ({ gares with children := some gac } : TNode) =
          gares := by
        rw [← hgacc]
      have hgres_eta : ({ gres with children := some gc } : TNode) = gres := by
        rw [← hgcc]
      have hUn : (relocate ⟨N, sts', st.root⟩ s (otherChild c s)
          (childIdx c s)).node =
          setT (setT (setT (setT (setT N a ares) gq gares)
            (otherChild c s) sibres) p pres) gp gres := by
        simp only [relocate, u1, hsp, u3, hx2, u6, hga, hares_eta, u7, hmap3,
          hgares_eta, u8, hsib_eta, hmkc, hpres_eta, u9, hmap4, hgres_eta]
      have hUr : (relocate ⟨N, sts', st.root⟩ s (otherChild c s)
          (childIdx c s)).root = st.root := by
        simp only [relocate, u1, hsp, u3, hx2, u6, hga, hares_eta, u7, hmap3,
          hgares_eta, u8, hsib_eta, hmkc, hpres_eta, u9, hmap4, hgres_eta]
      refine ⟨?_, hUr⟩
      intro j
      rw [hUn]
      by_cases hjgp : j = gp
      · subst hjgp
        rw [lookupT_set_self gres (by
          simp only [setT_length]
          rw [hlenN]
          exact lookupT_some_lt hgres)]
        exact hgres.symm
      · rw [lookupT_set_ne _ fun he => hjgp he.symm]
        by_cases hjp : j = p
        · subst hjp
          rw [lookupT_set_self pres (by
            simp only [setT_length]
            rw [hlenN]
            exact lookupT_some_lt hp)]
          exact hp.symm
        · rw [lookupT_set_ne _ fun he => hjp he.symm]
          by_cases hjsb : j = otherChild c s
          · subst hjsb
            rw [lookupT_set_self sibres (by
              simp only [setT_length]
              rw [hlenN]
              exact lookupT_some_lt hsib)]
            exact hsib.symm
          · rw [lookupT_set_ne _ fun he => hjsb he.symm]
            by_cases hjgq : j = gq
            · subst hjgq
              rw [lookupT_set_self gares (by
                simp only [setT_length]
                rw [hlenN]
                exact lookupT_some_lt hgares)]
              exact hgares.symm
            · rw [lookupT_set_ne _ fun he => hjgq he.symm]
              by_cases hja : j = a
              · subst hja
                rw [lookupT_set_self ares (by
                  rw [hlenN]
                  exact lookupT_some_lt hA)]
                exact hA.symm
              · rw [lookupT_set_ne _ fun he => hja he.symm, hN,
                  lookupT_set_ne _ fun he => hjgq he.symm,
                  lookupT_set_ne _ fun he => hjp he.symm,
                  lookupT_set_ne _ fun he => hja he.symm,
                  lookupT_set_ne _ fun he => hjgp he.symm,
                  lookupT_set_ne _ fun he => hjsb he.symm]

theorem relocate_status (st : MoveSt) (s t wc : Nat) :
    (relocate st s t wc).status = st.status := by
  simp only [relocate]
  repeat' split
  all_goals rfl

theorem replaceChild_facts (gc : Nat × Nat) (p sib a : Nat)
    (hgcp : gc.1 = p ∨ gc.2 = p) (hgca : gc.1 = a ∨ gc.2 = a)
    (hgc12 : gc.1 ≠ gc.2) (hpa : p ≠ a) (hsp : sib ≠ p) (hsa : sib ≠ a) :
    ((replaceChild gc p sib).1 = a ∨ (replaceChild gc p sib).2 = a) ∧
    (replaceChild gc p sib).1 ≠ (replaceChild gc p sib).2 ∧
    (replaceChild gc p sib).1 ≠ p ∧ (replaceChild gc p sib).2 ≠ p := by
  obtain ⟨g1, g2⟩ := gc
  simp only [] at hgcp hgca hgc12
  rcases hgcp with h1 | h1 <;> rcases hgca with h2 | h2 <;>
    subst h1 <;> subst h2 <;> simp_all [replaceChild] <;> omega

theorem relocateOkB_spec (st : MoveSt) (s a : Nat)
    (hok : relocateOkB st s a = true) :
    ∃ sres p pres c sibres,
      lookupT st.node s = some sres ∧ sres.parent = some p ∧
      lookupT st.node p = some pres ∧ pres.children = some c ∧
      (c.1 = s ∨ c.2 = s) ∧ c.1 ≠ c.2 ∧
      lookupT st.node (otherChild c s) = some sibres ∧
      sibres.parent = some p ∧
      s ≠ p ∧ s ≠ otherChild c s ∧ s ≠ a ∧ p ≠ otherChild c s ∧ p ≠ a ∧
      (pres.parent = none → st.root = some p) ∧
      (∀ gp, pres.parent = some gp → gp ≠ s ∧ gp ≠ p ∧
        gp ≠ otherChild c s ∧ gp ≠ a ∧
        ∃ gres gc, lookupT st.node gp = some gres ∧
          gres.children = some gc ∧ (gc.1 = p ∨ gc.2 = p) ∧ gc.1 ≠ gc.2 ∧
          gc.1 ≠ otherChild c s ∧ gc.2 ≠ otherChild c s) ∧
      (a = otherChild c s ∨
        (a ≠ otherChild c s ∧ ∃ ares, lookupT st.node a = some ares ∧
          (ares.parent = none → st.root = some a) ∧
          (∀ gq, ares.parent = some gq → gq ≠ s ∧ gq ≠ p ∧ gq ≠ a ∧
            ∃ gares gac, lookupT st.node gq = some gares ∧
              gares.children = some gac ∧ (gac.1 = a ∨ gac.2 = a) ∧
              gac.1 ≠ gac.2 ∧ (gac.1 = p → pres.parent = some gq) ∧
              (gac.2 = p → pres.parent = some gq)))) := by
  simp only [relocateOkB] at hok
  cases hs : lookupT st.node s with
  | none => simp only [hs] at hok; exact absurd hok (by simp)
  | some sres =>
  simp only [hs] at hok
  cases hsp : sres.parent with
  | none => simp only [hsp] at hok; exact absurd hok (by simp)
  | some p =>
  simp only [hsp] at hok
  cases hp : lookupT st.node p with
  | none => simp only [hp] at hok; exact absurd hok (by simp)
  | some pres =>
  simp only [hp] at hok
  cases hpc : pres.children with
  | none => simp only [hpc] at hok; exact absurd hok (by simp)
  | some c =>
  simp only [hpc] at hok
  cases hsib : lookupT st.node (otherChild c s) with
  | none => simp only [hsib, Bool.and_eq_true] at hok; exact absurd hok.1.1.1.1.1.1.1.2 (by simp)
  | some sibres =>
  simp only [hsib, Bool.and_eq_true, beq_iff_eq, bne_iff_ne,
    decide_eq_true_eq] at hok
  obtain ⟨⟨⟨⟨⟨⟨⟨⟨⟨hcs, hc12⟩, hsibp⟩, hsp2⟩, hssb⟩, hsa⟩, hpsb⟩, hpa⟩,
    hMg⟩, hMif⟩ := hok
  have hgpart : (pres.parent = none → st.root = some p) ∧
      (∀ gp, pres.parent = some gp → gp ≠ s ∧ gp ≠ p ∧
        gp ≠ otherChild c s ∧ gp ≠ a ∧
        ∃ gres gc, lookupT st.node gp = some gres ∧
          gres.children = some gc ∧ (gc.1 = p ∨ gc.2 = p) ∧ gc.1 ≠ gc.2 ∧
          gc.1 ≠ otherChild c s ∧ gc.2 ≠ otherChild c s) := by
    constructor
    · intro hgn
      simp only [hgn, beq_iff_eq] at hMg
      exact hMg
    · intro gp hgp
      simp only [hgp] at hMg
      cases hgres : lookupT st.node gp with
      | none => simp only [hgres, Bool.and_eq_true] at hMg; exact absurd hMg.2 (by simp)
      | some gres =>
      simp only [hgres] at hMg
      cases hgcc : gres.children with
      | none => simp only [hgcc, Bool.and_eq_true] at hMg; exact absurd hMg.2 (by simp)
      | some gc =>
      simp only [hgcc, Bool.and_eq_true, bne_iff_ne, decide_eq_true_eq] at hMg
      obtain ⟨⟨⟨⟨hgp_s, hgp_p⟩, hgp_sb⟩, hgp_a⟩,
        ⟨⟨⟨hgcp, hgc12⟩, hgc1sb⟩, hgc2sb⟩⟩ := hMg
      exact ⟨hgp_s, hgp_p, hgp_sb, hgp_a, gres, gc, rfl, hgcc, hgcp, hgc12,
        hgc1sb, hgc2sb⟩
  refine ⟨sres, p, pres, c, sibres, rfl, hsp, hp, hpc, hcs, hc12,
    hsib, hsibp, hsp2, hssb, hsa, hpsb, hpa, hgpart.1, hgpart.2, ?_⟩
  by_cases hasib : a = otherChild c s
  · exact Or.inl hasib
  · rw [if_neg hasib] at hMif
    refine Or.inr ⟨hasib, ?_⟩
    cases hA : lookupT st.node a with
    | none => simp only [hA] at hMif; exact absurd hMif (by simp)
    | some ares =>
    simp only [hA] at hMif
    refine ⟨ares, rfl, ?_, ?_⟩
    · intro hgan
      simp only [hgan, beq_iff_eq] at hMif
      exact hMif
    · intro gq hgq
      simp only [hgq] at hMif
      cases hgares : lookupT st.node gq with
      | none => simp only [hgares, Bool.and_eq_true] at hMif; exact absurd hMif.2 (by simp)
      | some gares =>
      simp only [hgares] at hMif
      cases hgacc : gares.children with
      | none => simp only [hgacc, Bool.and_eq_true] at hMif; exact absurd hMif.2 (by simp)
      | some gac =>
      simp only [hgacc, Bool.and_eq_true, bne_iff_ne, decide_eq_true_eq]
        at hMif
      obtain ⟨⟨⟨hgq_s, hgq_p⟩, hgq_a⟩,
        ⟨⟨⟨hgaca, hgac12⟩, hgac1p⟩, hgac2p⟩⟩ := hMif
      exact ⟨hgq_s, hgq_p, hgq_a, gares, gac, rfl, hgacc, hgaca, hgac12,
        hgac1p, hgac2p⟩


theorem relocate_to_sibling (st : MoveSt) (s p : Nat)
    (sres pres sibres : TNode) (c : Nat × Nat)
    (hs : lookupT st.node s = some sres)
    (hsp : sres.parent = some p)
    (hp : lookupT st.node p = some pres)
    (hpc : pres.children = some c)
    (hcs : c.1 = s ∨ c.2 = s) (hc12 : c.1 ≠ c.2)
    (hsib : lookupT st.node (otherChild c s) = some sibres)
    (hsibp : sibres.parent = some p)
    (hsp2 : s ≠ p) (hssb : s ≠ otherChild c s) (hpsb : p ≠ otherChild c s)
    (hgnone : pres.parent = none → st.root = some p)
    (hgsome : ∀ gp, pres.parent = some gp →
      gp ≠ s ∧ gp ≠ p ∧ gp ≠ otherChild c s ∧
      ∃ gres gc, lookupT st.node gp = some gres ∧
        gres.children = some gc ∧ (gc.1 = p ∨ gc.2 = p) ∧ gc.1 ≠ gc.2 ∧
        gc.1 ≠ otherChild c s ∧ gc.2 ≠ otherChild c s) :
    (∀ j, lookupT (relocate st s (otherChild c s) (childIdx c s)).node j =
      lookupT st.node j) ∧
    (relocate st s (otherChild c s) (childIdx c s)).root = st.root := by
  have hmkc : mkChildren (childIdx c s) s (otherChild c s) = c :=
    mkChildren_childIdx c s hcs hc12
  have hsib_eta : ({ sibres with parent := some p } : TNode) = sibres := by
    rw [← hsibp]
  cases hg : pres.parent with
  | none =>
    have hpres_eta : (⟨none, some c⟩ : TNode) = pres := by
      rw [← hg, ← hpc]
    have e1 : lookupT (setT st.node (otherChild c s)
        { sibres with parent := none }) (otherChild c s) =
        some { sibres with parent := none } :=
      lookupT_set_self _ (lookupT_some_lt hsib)
    have hTn : (relocate st s (otherChild c s) (childIdx c s)).node =
        setT (setT (setT st.node (otherChild c s)
          { sibres with parent := none }) (otherChild c s) sibres) p pres := by
      simp only [relocate, hs, hsp, hp, hpc, hg, hsib, e1, hmkc, hsib_eta,
        hpres_eta]
    have hTr : (relocate st s (otherChild c s) (childIdx c s)).root =
        some p := by
      simp only [relocate, hs, hsp, hp, hpc, hg, hsib, e1, hmkc, hsib_eta,
        hpres_eta]
    refine ⟨?_, by rw [hTr, hgnone hg]⟩
    intro j
    rw [hTn]
    by_cases hjp : j = p
    · subst hjp
      rw [lookupT_set_self pres (by
        simp only [setT_length]
        exact lookupT_some_lt hp)]
      exact hp.symm
    · rw [lookupT_set_ne _ fun he => hjp he.symm]
      by_cases hjsb : j = otherChild c s
      · subst hjsb
        rw [lookupT_set_self sibres (by
          simp only [setT_length]
          exact lookupT_some_lt hsib)]
        exact hsib.symm
      · rw [lookupT_set_ne _ fun he => hjsb he.symm,
          lookupT_set_ne _ fun he => hjsb he.symm]
  | some gp =>
    obtain ⟨hgp_s, hgp_p, hgp_sb, hgc⟩ := hgsome gp hg
    obtain ⟨gres, gc, hgres, hgcc, hgcp, hgc12, hgc1sb, hgc2sb⟩ := hgc
    have hpres_eta : (⟨some gp, some c⟩ : TNode) = pres := by
      rw [← hg, ← hpc]
    have hgres_eta : ({ gres with children := some gc } : TNode) = gres := by
      rw [← hgcc]
    have hrc : replaceChild (replaceChild gc p (otherChild c s))
        (otherChild c s) p = gc :=
      replaceChild_roundtrip gc p _ hgcp hgc12 hgc1sb hgc2sb
    have e1 : lookupT (setT st.node (otherChild c s)
        { sibres with parent := some gp }) gp = some gres := by
      rw [lookupT_set_ne _ (Ne.symm hgp_sb)]
      exact hgres
    have hmap1 : Option.map (fun cc => replaceChild cc p (otherChild c s))
        gres.children = some (replaceChild gc p (otherChild c s)) := by
      rw [hgcc]
      rfl
    have e2 : lookupT (setT (setT st.node (otherChild c s)
        { sibres with parent := some gp }) gp
        { gres with children := some (replaceChild gc p (otherChild c s)) })
        (otherChild c s) = some { sibres with parent := some gp } := by
      rw [lookupT_set_ne _ hgp_sb]
      exact lookupT_set_self _ (lookupT_some_lt hsib)
    have e3 : lookupT (setT (setT (setT (setT st.node (otherChild c s)
        { sibres with parent := some gp }) gp
        { gres with children := some (replaceChild gc p (otherChild c s)) })
        (otherChild c s) sibres) p pres) gp =
        some { gres with children := some (replaceChild gc p (otherChild c s)) } := by
      rw [lookupT_set_ne _ (Ne.symm hgp_p), lookupT_set_ne _ (Ne.symm hgp_sb)]
      exact lookupT_set_self _
        (by simp only [setT_length]; exact lookupT_some_lt hgres)
    have hmap2 : Option.map (fun cc => replaceChild cc (otherChild c s) p)
        (some (replaceChild gc p (otherChild c s))) = some gc := by
      simp only [Option.map, hrc]
    have hTn : (relocate st s (otherChild c s) (childIdx c s)).node =
        setT (setT (setT (setT (setT st.node (otherChild c s)
          { sibres with parent := some gp }) gp
          { gres with children := some (replaceChild gc p (otherChild c s)) })
          (otherChild c s) sibres) p pres) gp gres := by
      simp only [relocate, hs, hsp, hp, hpc, hg, hsib, e1, hmap1, e2, e3,
        hmap2, hmkc, hsib_eta, hpres_eta, hgres_eta]
    have hTr : (relocate st s (otherChild c s) (childIdx c s)).root =
        st.root := by
      simp only [relocate, hs, hsp, hp, hpc, hg, hsib, e1, hmap1, e2, e3,
        hmap2, hmkc, hsib_eta, hpres_eta, hgres_eta]
    refine ⟨?_, hTr⟩
    intro j
    rw [hTn]
    by_cases hjgp : j = gp
    · subst hjgp
      rw [lookupT_set_self gres (by
        simp only [setT_length]
        exact lookupT_some_lt hgres)]
      exact hgres.symm
    · rw [lookupT_set_ne _ fun he => hjgp he.symm]
      by_cases hjp : j = p
      · subst hjp
        rw [lookupT_set_self pres (by
          simp only [setT_length]
          exact lookupT_some_lt hp)]
        exact hp.symm
      · rw [lookupT_set_ne _ fun he => hjp he.symm]
        by_cases hjsb : j = otherChild c s
        · subst hjsb
          rw [lookupT_set_self sibres (by
            simp only [setT_length]
            exact lookupT_some_lt hsib)]
          exact hsib.symm
        · rw [lookupT_set_ne _ fun he => hjsb he.symm,
            lookupT_set_ne _ fun he => hjgp he.symm,
            lookupT_set_ne _ fun he => hjsb he.symm]


theorem relocate_roundtrip_descend (st : MoveSt) (s p a : Nat)
    (sres pres sibres ares : TNode) (c sc : Nat × Nat)
    (hs : lookupT st.node s = some sres)
    (hsp : sres.parent = some p)
    (hp : lookupT st.node p = some pres)
    (hpc : pres.children = some c)
    (hcs : c.1 = s ∨ c.2 = s)
    (hc12 : c.1 ≠ c.2)
    (hsib : lookupT st.node (otherChild c s) = some sibres)
    (hsibp : sibres.parent = some p)
    (hA : lookupT st.node a = some ares)
    (hga : ares.parent = some (otherChild c s))
    (hsc : sibres.children = some sc)
    (hsca : sc.1 = a ∨ sc.2 = a) (hsc12 : sc.1 ≠ sc.2)
    (hsc1p : sc.1 ≠ p) (hsc2p : sc.2 ≠ p)
    (hsp2 : s ≠ p) (hssb : s ≠ otherChild c s) (hsa : s ≠ a)
    (hpsb : p ≠ otherChild c s) (hpa : p ≠ a) (hsba : otherChild c s ≠ a)
    (hgnone : pres.parent = none → st.root = some p)
    (hgsome : ∀ gp, pres.parent = some gp →
      gp ≠ s ∧ gp ≠ p ∧ gp ≠ otherChild c s ∧ gp ≠ a ∧
      ∃ gres gc, lookupT st.node gp = some gres ∧
        gres.children = some gc ∧ (gc.1 = p ∨ gc.2 = p) ∧ gc.1 ≠ gc.2 ∧
        gc.1 ≠ otherChild c s ∧ gc.2 ≠ otherChild c s)
    (sts' : List Nat) :
    (∀ j, lookupT (relocate
        ⟨(relocate st s a (childIdx c s)).node, sts',
          (relocate st s a (childIdx c s)).root⟩ s (otherChild c s)
        (childIdx c s)).node j = lookupT st.node j) ∧
    (relocate ⟨(relocate st s a (childIdx c s)).node, sts',
        (relocate st s a (childIdx c s)).root⟩ s (otherChild c s)
        (childIdx c s)).root = st.root := by
  have hmkc : mkChildren (childIdx c s) s (otherChild c s) = c :=
    mkChildren_childIdx c s hcs hc12
  have hx2 : otherChild (mkChildren (childIdx c s) s a) s = a :=
    otherChild_mkChildren _ _ _ (Ne.symm hsa)
  have hares_eta : ({ ares with parent := some (otherChild c s) } : TNode) =
      ares := by
    rw [← hga]
  have hsib_eta2 : (⟨some p, some sc⟩ : TNode) = sibres := by
    rw [← hsibp, ← hsc]
  have hrc1 : replaceChild (replaceChild sc a p) p a = sc :=
    replaceChild_roundtrip sc a p hsca hsc12 hsc1p hsc2p
  have hmap1 : Option.map (fun cc => replaceChild cc a p) sibres.children =
      some (replaceChild sc a p) := by
    rw [hsc]
    rfl
  have hmap2 : Option.map (fun cc => replaceChild cc p a)
      (some (replaceChild sc a p)) = some sc := by
    simp only [Option.map, hrc1]
  cases hg : pres.parent with
  | none =>
    have hpres_eta : (⟨none, some c⟩ : TNode) = pres := by
      rw [← hg, ← hpc]
    have e1 : lookupT (setT st.node (otherChild c s)
        { sibres with parent := none }) a = some ares := by
      rw [lookupT_set_ne _ hsba]
      exact hA
    have e2 : lookupT (setT (setT (setT st.node (otherChild c s)
        { sibres with parent := none }) a { ares with parent := some p }) p
        (⟨some (otherChild c s), some (mkChildren (childIdx c s) s a)⟩ : TNode))
        (otherChild c s) = some { sibres with parent := none } := by
      rw [lookupT_set_ne _ hpsb, lookupT_set_ne _ (Ne.symm hsba)]
      exact lookupT_set_self _ (lookupT_some_lt hsib)
    have hTn : (relocate st s a (childIdx c s)).node =
        setT (setT (setT (setT st.node (otherChild c s)
          { sibres with parent := none }) a { ares with parent := some p })
          p (⟨some (otherChild c s), some (mkChildren (childIdx c s) s a)⟩ : TNode))
          (otherChild c s) (⟨none, some (replaceChild sc a p)⟩ : TNode) := by
      simp only [relocate, hs, hsp, hp, hpc, hg, hsib, e1, hga, e2, hmap1]
    have hTr : (relocate st s a (childIdx c s)).root =
        some (otherChild c s) := by
      simp only [relocate, hs, hsp, hp, hpc, hg, hsib, e1, hga, e2, hmap1]
    rw [hTn, hTr]
    set N := setT (setT (setT (setT st.node (otherChild c s)
      { sibres with parent := none }) a { ares with parent := some p })
      p (⟨some (otherChild c s), some (mkChildren (childIdx c s) s a)⟩ : TNode))
      (otherChild c s) (⟨none, some (replaceChild sc a p)⟩ : TNode) with hN
    have hlenN : N.length = st.node.length := by
      rw [hN]
      simp only [setT_length]
    have u1 : lookupT N s = some sres := by
      rw [hN, lookupT_set_ne _ (Ne.symm hssb), lookupT_set_ne _ (Ne.symm hsp2),
        lookupT_set_ne _ (Ne.symm hsa), lookupT_set_ne _ (Ne.symm hssb)]
      exact hs
    have u3 : lookupT N p = some
        (⟨some (otherChild c s), some (mkChildren (childIdx c s) s a)⟩ : TNode) := by
      rw [hN, lookupT_set_ne _ hpsb.symm]
      exact lookupT_set_self _
        (by simp only [setT_length]; exact lookupT_some_lt hp)
    have u6 : lookupT N a = some { ares with parent := some p } := by
      rw [hN, lookupT_set_ne _ hsba, lookupT_set_ne _ hpa]
      exact lookupT_set_self _
        (by simp only [setT_length]; exact lookupT_some_lt hA)
    have u7 : lookupT (setT N a ares) (otherChild c s) =
        some (⟨none, some (replaceChild sc a p)⟩ : TNode) := by
      rw [lookupT_set_ne _ (Ne.symm hsba), hN]
      exact lookupT_set_self _
        (by simp only [setT_length]; exact lookupT_some_lt hsib)
    have u8 : lookupT (setT (setT N a ares) (otherChild c s)
        (⟨none, some sc⟩ : TNode)) (otherChild c s) =
        some (⟨none, some sc⟩ : TNode) :=
      lookupT_set_self _ (by
        simp only [setT_length]
        rw [hlenN]
        exact lookupT_some_lt hsib)
    have hUn : (relocate ⟨N, sts', some (otherChild c s)⟩ s (otherChild c s)
        (childIdx c s)).node =
        setT (setT (setT (setT N a ares) (otherChild c s)
          (⟨none, some sc⟩ : TNode)) (otherChild c s) sibres) p pres := by
      simp only [relocate, u1, hsp, u3, hx2, u6, hares_eta, u7, hmap2, u8,
        hsib_eta2, hmkc, hpres_eta]
    have hUr : (relocate ⟨N, sts', some (otherChild c s)⟩ s (otherChild c s)
        (childIdx c s)).root = some p := by
      simp only [relocate, u1, hsp, u3, hx2, u6, hares_eta, u7, hmap2, u8,
        hsib_eta2, hmkc, hpres_eta]
    refine ⟨?_, by rw [hUr, hgnone hg]⟩
    intro j
    rw [hUn]
    by_cases hjp : j = p
    · subst hjp
      rw [lookupT_set_self pres (by
        simp only [setT_length]
        rw [hlenN]
        exact lookupT_some_lt hp)]
      exact hp.symm
    · rw [lookupT_set_ne _ fun he => hjp he.symm]
      by_cases hjsb : j = otherChild c s
      · subst hjsb
        rw [lookupT_set_self sibres (by
          simp only [setT_length]
          rw [hlenN]
          exact lookupT_some_lt hsib)]
        exact hsib.symm
      · rw [lookupT_set_ne _ fun he => hjsb he.symm,
          lookupT_set_ne _ fun he => hjsb he.symm]
        by_cases hja : j = a
        · subst hja
          rw [lookupT_set_self ares (by
            rw [hlenN]
            exact lookupT_some_lt hA)]
          exact hA.symm
        · rw [lookupT_set_ne _ fun he => hja he.symm, hN,
            lookupT_set_ne _ fun he => hjsb he.symm,
            lookupT_set_ne _ fun he => hjp he.symm,
            lookupT_set_ne _ fun he => hja he.symm,
            lookupT_set_ne _ fun he => hjsb he.symm]
  | some gp =>
    obtain ⟨hgp_s, hgp_p, hgp_sb, hgp_a, hgc⟩ := hgsome gp hg
    obtain ⟨gres, gc, hgres, hgcc, hgcp, hgc12, hgc1sb, hgc2sb⟩ := hgc
    have hpres_eta : (⟨some gp, some c⟩ : TNode) = pres := by
      rw [← hg, ← hpc]
    have hgres_eta : ({ gres with children := some gc } : TNode) = gres := by
      rw [← hgcc]
    have hrc2 : replaceChild (replaceChild gc p (otherChild c s))
        (otherChild c s) p = gc :=
      replaceChild_roundtrip gc p _ hgcp hgc12 hgc1sb hgc2sb
    have hmap1g : Option.map (fun cc => replaceChild cc p (otherChild c s))
        gres.children = some (replaceChild gc p (otherChild c s)) := by
      rw [hgcc]
      rfl
    have hmap4 : Option.map (fun cc => replaceChild cc (otherChild c s) p)
        (some (replaceChild gc p (otherChild c s))) = some gc := by
      simp only [Option.map, hrc2]
    have e1 : lookupT (setT st.node (otherChild c s)
        { sibres with parent := some gp }) gp = some gres := by
      rw [lookupT_set_ne _ (Ne.symm hgp_sb)]
      exact hgres
    have e2 : lookupT (setT (setT st.node (otherChild c s)
        { sibres with parent := some gp }) gp
        { gres with children := some (replaceChild gc p (otherChild c s)) })
        a = some ares := by
      rw [lookupT_set_ne _ hgp_a, lookupT_set_ne _ hsba]
      exact hA
    have e3 : lookupT (setT (setT (setT (setT st.node (otherChild c s)
        { sibres with parent := some gp }) gp
        { gres with children := some (replaceChild gc p (otherChild c s)) })
        a { ares with parent := some p }) p
        (⟨some (otherChild c s), some (mkChildren (childIdx c s) s a)⟩ : TNode))
        (otherChild c s) = some { sibres with parent := some gp } := by
      rw [lookupT_set_ne _ hpsb, lookupT_set_ne _ (Ne.symm hsba),
        lookupT_set_ne _ hgp_sb]
      exact lookupT_set_self _ (lookupT_some_lt hsib)
    have hTn : (relocate st s a (childIdx c s)).node =
        setT (setT (setT (setT (setT st.node (otherChild c s)
          { sibres with parent := some gp }) gp
          { gres with children := some (replaceChild gc p (otherChild c s)) })
          a { ares with parent := some p }) p
          (⟨some (otherChild c s), some (mkChildren (childIdx c s) s a)⟩ : TNode))
          (otherChild c s)
          (⟨some gp, some (replaceChild sc a p)⟩ : TNode) := by
      simp only [relocate, hs, hsp, hp, hpc, hg, hsib, e1, hmap1g, e2, hga,
        e3, hmap1]
    have hTr : (relocate st s a (childIdx c s)).root = st.root := by
      simp only [relocate, hs, hsp, hp, hpc, hg, hsib, e1, hmap1g, e2, hga,
        e3, hmap1]
    rw [hTn, hTr]
    set N := setT (setT (setT (setT (setT st.node (otherChild c s)
      { sibres with parent := some gp }) gp
      { gres with children := some (replaceChild gc p (otherChild c s)) })
      a { ares with parent := some p }) p
      (⟨some (otherChild c s), some (mkChildren (childIdx c s) s a)⟩ : TNode))
      (otherChild c s)
      (⟨some gp, some (replaceChild sc a p)⟩ : TNode) with hN
    have hlenN : N.length = st.node.length := by
      rw [hN]
      simp only [setT_length]
    have u1 : lookupT N s = some sres := by
      rw [hN, lookupT_set_ne _ (Ne.symm hssb), lookupT_set_ne _ (Ne.symm hsp2),
        lookupT_set_ne _ (Ne.symm hsa), lookupT_set_ne _ hgp_s,
        lookupT_set_ne _ (Ne.symm hssb)]
      exact hs
    have u3 : lookupT N p = some
        (⟨some (otherChild c s), some (mkChildren (childIdx c s) s a)⟩ : TNode) := by
      rw [hN, lookupT_set_ne _ hpsb.symm]
      exact lookupT_set_self _
        (by simp only [setT_length]; exact lookupT_some_lt hp)
    have u6 : lookupT N a = some { ares with parent := some p } := by
      rw [hN, lookupT_set_ne _ hsba, lookupT_set_ne _ hpa]
      exact lookupT_set_self _
        (by simp only [setT_length]; exact lookupT_some_lt hA)
    have u7 : lookupT (setT N a ares) (otherChild c s) =
        some (⟨some gp, some (replaceChild sc a p)⟩ : TNode) := by
      rw [lookupT_set_ne _ (Ne.symm hsba), hN]
      exact lookupT_set_self _
        (by simp only [setT_length]; exact lookupT_some_lt hsib)
    have u8 : lookupT (setT (setT N a ares) (otherChild c s)
        (⟨some gp, some sc⟩ : TNode)) (otherChild c s) =
        some (⟨some gp, some sc⟩ : TNode) :=
      lookupT_set_self _ (by
        simp only [setT_length]
        rw [hlenN]
        exact lookupT_some_lt hsib)
    have u9 : lookupT (setT (setT (setT (setT N a ares) (otherChild c s)
        (⟨some gp, some sc⟩ : TNode)) (otherChild c s) sibres) p pres) gp =
        some { gres with children := some (replaceChild gc p (otherChild c s)) } := by
      rw [lookupT_set_ne _ (Ne.symm hgp_p), lookupT_set_ne _ (Ne.symm hgp_sb),
        lookupT_set_ne _ (Ne.symm hgp_sb), lookupT_set_ne _ (Ne.symm hgp_a),
        hN, lookupT_set_ne _ (Ne.symm hgp_sb), lookupT_set_ne _ (Ne.symm hgp_p),
        lookupT_set_ne _ (Ne.symm hgp_a)]
      exact lookupT_set_self _
        (by simp only [setT_length]; exact lookupT_some_lt hgres)
    have hUn : (relocate ⟨N, sts', st.root⟩ s (otherChild c s)
        (childIdx c s)).node =
        setT (setT (setT (setT (setT N a ares) (otherChild c s)
          (⟨some gp, some sc⟩ : TNode)) (otherChild c s) sibres) p pres)
          gp gres := by
      simp only [relocate, u1, hsp, u3, hx2, u6, hares_eta, u7, hmap2, u8,
        hsib_eta2, hmkc, hpres_eta, u9, hmap4, hgres_eta]
    have hUr : (relocate ⟨N, sts', st.root⟩ s (otherChild c s)
        (childIdx c s)).root = st.root := by
      simp only [relocate, u1, hsp, u3, hx2, u6, hares_eta, u7, hmap2, u8,
        hsib_eta2, hmkc, hpres_eta, u9, hmap4, hgres_eta]
    refine ⟨?_, hUr⟩
    intro j
    rw [hUn]
    by_cases hjgp : j = gp
    · subst hjgp
      rw [lookupT_set_self gres (by
        simp only [setT_length]
        rw [hlenN]
        exact lookupT_some_lt hgres)]
      exact hgres.symm
    · rw [lookupT_set_ne _ fun he => hjgp he.symm]
      by_cases hjp : j = p
      · subst hjp
        rw [lookupT_set_self pres (by
          simp only [setT_length]
          rw [hlenN]
          exact lookupT_some_lt hp)]
        exact hp.symm
      · rw [lookupT_set_ne _ fun he => hjp he.symm]
        by_cases hjsb : j = otherChild c s
        · subst hjsb
          rw [lookupT_set_self sibres (by
            simp only [setT_length]
            rw [hlenN]
            exact lookupT_some_lt hsib)]
          exact hsib.symm
        · rw [lookupT_set_ne _ fun he => hjsb he.symm,
            lookupT_set_ne _ fun he => hjsb he.symm]
          by_cases hja : j = a
          · subst hja
            rw [lookupT_set_self ares (by
              rw [hlenN]
              exact lookupT_some_lt hA)]
            exact hA.symm
          · rw [lookupT_set_ne _ fun he => hja he.symm, hN,
              lookupT_set_ne _ fun he => hjsb he.symm,
              lookupT_set_ne _ fun he => hjp he.symm,
              lookupT_set_ne _ fun he => hja he.symm,
              lookupT_set_ne _ fun he => hjgp he.symm,
              lookupT_set_ne _ fun he => hjsb he.symm]


theorem relocate_roundtrip_uncle (st : MoveSt) (s p a G : Nat)
    (sres pres sibres ares gres : TNode) (c gc : Nat × Nat)
    (hs : lookupT st.node s = some sres)
    (hsp : sres.parent = some p)
    (hp : lookupT st.node p = some pres)
    (hpc : pres.children = some c)
    (hcs : c.1 = s ∨ c.2 = s)
    (hc12 : c.1 ≠ c.2)
    (hsib : lookupT st.node (otherChild c s) = some sibres)
    (hsibp : sibres.parent = some p)
    (hA : lookupT st.node a = some ares)
    (hg : pres.parent = some G)
    (hga : ares.parent = some G)
    (hgres : lookupT st.node G = some gres)
    (hgcc : gres.children = some gc)
    (hgcp : gc.1 = p ∨ gc.2 = p)
    (hgca : gc.1 = a ∨ gc.2 = a)
    (hgc12 : gc.1 ≠ gc.2)
    (hgc1sb : gc.1 ≠ otherChild c s) (hgc2sb : gc.2 ≠ otherChild c s)
    (hG_s : G ≠ s) (hG_p : G ≠ p) (hG_sb : G ≠ otherChild c s) (hG_a : G ≠ a)
    (hsp2 : s ≠ p) (hssb : s ≠ otherChild c s) (hsa : s ≠ a)
    (hpsb : p ≠ otherChild c s) (hpa : p ≠ a) (hsba : otherChild c s ≠ a)
    (sts' : List Nat) :
    (∀ j, lookupT (relocate
        ⟨(relocate st s a (childIdx c s)).node, sts',
          (relocate st s a (childIdx c s)).root⟩ s (otherChild c s)
        (childIdx c s)).node j = lookupT st.node j) ∧
    (relocate ⟨(relocate st s a (childIdx c s)).node, sts',
        (relocate st s a (childIdx c s)).root⟩ s (otherChild c s)
        (childIdx c s)).root = st.root := by
  have hmkc : mkChildren (childIdx c s) s (otherChild c s) = c :=
    mkChildren_childIdx c s hcs hc12
  have hx2 : otherChild (mkChildren (childIdx c s) s a) s = a :=
    otherChild_mkChildren _ _ _ (Ne.symm hsa)
  have hares_eta : ({ ares with parent := some G } : TNode) = ares := by
    rw [← hga]
  have hsib_eta : ({ sibres with parent := some p } : TNode) = sibres := by
    rw [← hsibp]
  have hpres_eta : (⟨some G, some c⟩ : TNode) = pres := by
    rw [← hg, ← hpc]
  have hgres_eta : ({ gres with children := some gc } : TNode) = gres := by
    rw [← hgcc]
  obtain ⟨hrca, hrc12, hrc1p, hrc2p⟩ :=
    replaceChild_facts gc p (otherChild c s) a hgcp hgca hgc12 hpa
      (Ne.symm hpsb) hsba
  have hrc1A : replaceChild (replaceChild (replaceChild gc p (otherChild c s))
      a p) p a = replaceChild gc p (otherChild c s) :=
    replaceChild_roundtrip _ a p hrca hrc12 hrc1p hrc2p
  have hrc2B : replaceChild (replaceChild gc p (otherChild c s))
      (otherChild c s) p = gc :=
    replaceChild_roundtrip gc p _ hgcp hgc12 hgc1sb hgc2sb
  have hmap1 : Option.map (fun cc => replaceChild cc p (otherChild c s))
      gres.children = some (replaceChild gc p (otherChild c s)) := by
    rw [hgcc]
    rfl
  have hmap2 : Option.map (fun cc => replaceChild cc a p)
      (some (replaceChild gc p (otherChild c s))) =
      some (replaceChild (replaceChild gc p (otherChild c s)) a p) := rfl
  have hmap3 : Option.map (fun cc => replaceChild cc p a)
      (some (replaceChild (replaceChild gc p (otherChild c s)) a p)) =
      some (replaceChild gc p (otherChild c s)) := by
    simp only [Option.map, hrc1A]
  have hmap4 : Option.map (fun cc => replaceChild cc (otherChild c s) p)
      (some (replaceChild gc p (otherChild c s))) = some gc := by
    simp only [Option.map, hrc2B]
  have e1 : lookupT (setT st.node (otherChild c s)
      { sibres with parent := some G }) G = some gres := by
    rw [lookupT_set_ne _ (Ne.symm hG_sb)]
    exact hgres
  have e2 : lookupT (setT (setT st.node (otherChild c s)
      { sibres with parent := some G }) G
      { gres with children := some (replaceChild gc p (otherChild c s)) })
      a = some ares := by
    rw [lookupT_set_ne _ hG_a, lookupT_set_ne _ hsba]
    exact hA
  have e3 : lookupT (setT (setT (setT (setT st.node (otherChild c s)
      { sibres with parent := some G }) G
      { gres with children := some (replaceChild gc p (otherChild c s)) })
      a { ares with parent := some p }) p
      (⟨some G, some (mkChildren (childIdx c s) s a)⟩ : TNode)) G =
      some { gres with children := some (replaceChild gc p (otherChild c s)) } := by
    rw [lookupT_set_ne _ (Ne.symm hG_p), lookupT_set_ne _ (Ne.symm hG_a)]
    exact lookupT_set_self _
      (by simp only [setT_length]; exact lookupT_some_lt hgres)
  have hTn : (relocate st s a (childIdx c s)).node =
      setT (setT (setT (setT (setT st.node (otherChild c s)
        { sibres with parent := some G }) G
        { gres with children := some (replaceChild gc p (otherChild c s)) })
        a { ares with parent := some p }) p
        (⟨some G, some (mkChildren (childIdx c s) s a)⟩ : TNode)) G
        { gres with children := some (replaceChild (replaceChild gc p (otherChild c s)) a p) } := by
    simp only [relocate, hs, hsp, hp, hpc, hg, hsib, e1, hmap1, e2, hga, e3,
      hmap2]
  have hTr : (relocate st s a (childIdx c s)).root = st.root := by
    simp only [relocate, hs, hsp, hp, hpc, hg, hsib, e1, hmap1, e2, hga, e3,
      hmap2]
  rw [hTn, hTr]
  set N := setT (setT (setT (setT (setT st.node (otherChild c s)
    { sibres with parent := some G }) G
    { gres with children := some (replaceChild gc p (otherChild c s)) })
    a { ares with parent := some p }) p
    (⟨some G, some (mkChildren (childIdx c s) s a)⟩ : TNode)) G
    { gres with children := some (replaceChild (replaceChild gc p (otherChild c s)) a p) } with hN
  have hlenN : N.length = st.node.length := by
    rw [hN]
    simp only [setT_length]
  have u1 : lookupT N s = some sres := by
    rw [hN, lookupT_set_ne _ hG_s, lookupT_set_ne _ (Ne.symm hsp2),
      lookupT_set_ne _ (Ne.symm hsa), lookupT_set_ne _ hG_s,
      lookupT_set_ne _ (Ne.symm hssb)]
    exact hs
  have u3 : lookupT N p = some
      (⟨some G, some (mkChildren (childIdx c s) s a)⟩ : TNode) := by
    rw [hN, lookupT_set_ne _ hG_p]
    exact lookupT_set_self _
      (by simp only [setT_length]; exact lookupT_some_lt hp)
  have u6 : lookupT N a = some { ares with parent := some p } := by
    rw [hN, lookupT_set_ne _ hG_a, lookupT_set_ne _ hpa]
    exact lookupT_set_self _
      (by simp only [setT_length]; exact lookupT_some_lt hA)
  have u7 : lookupT (setT N a ares) G =
      some { gres with children := some (replaceChild (replaceChild gc p (otherChild c s)) a p) } := by
    rw [lookupT_set_ne _ (Ne.symm hG_a), hN]
    exact lookupT_set_self _
      (by simp only [setT_length]; exact lookupT_some_lt hgres)
  have u8 : lookupT (setT (setT N a ares) G
      { gres with children := some (replaceChild gc p (otherChild c s)) })
      (otherChild c s) = some { sibres with parent := some G } := by
    rw [lookupT_set_ne _ hG_sb, lookupT_set_ne _ (Ne.symm hsba), hN,
      lookupT_set_ne _ hG_sb, lookupT_set_ne _ hpsb,
      lookupT_set_ne _ (Ne.symm hsba), lookupT_set_ne _ hG_sb]
    exact lookupT_set_self _ (lookupT_some_lt hsib)
  have u9 : lookupT (setT (setT (setT (setT N a ares) G
      { gres with children := some (replaceChild gc p (otherChild c s)) })
      (otherChild c s) sibres) p pres) G =
      some { gres with children := some (replaceChild gc p (otherChild c s)) } := by
    rw [lookupT_set_ne _ (Ne.symm hG_p), lookupT_set_ne _ (Ne.symm hG_sb)]
    exact lookupT_set_self _ (by
      simp only [setT_length]
      rw [hlenN]
      exact lookupT_some_lt hgres)
  have hUn : (relocate ⟨N, sts', st.root⟩ s (otherChild c s)
      (childIdx c s)).node =
      setT (setT (setT (setT (setT N a ares) G
        { gres with children := some (replaceChild gc p (otherChild c s)) })
        (otherChild c s) sibres) p pres) G gres := by
    simp only [relocate, u1, hsp, u3, hx2, u6, hares_eta, u7, hmap3, u8,
      hsib_eta, hmkc, hpres_eta, u9, hmap4, hgres_eta]
  have hUr : (relocate ⟨N, sts', st.root⟩ s (otherChild c s)
      (childIdx c s)).root = st.root := by
    simp only [relocate, u1, hsp, u3, hx2, u6, hares_eta, u7, hmap3, u8,
      hsib_eta, hmkc, hpres_eta, u9, hmap4, hgres_eta]
  refine ⟨?_, hUr⟩
  intro j
  rw [hUn]
  by_cases hjG : j = G
  · subst hjG
    rw [lookupT_set_self gres (by
      simp only [setT_length]
      rw [hlenN]
      exact lookupT_some_lt hgres)]
    exact hgres.symm
  · rw [lookupT_set_ne _ fun he => hjG he.symm]
    by_cases hjp : j = p
    · subst hjp
      rw [lookupT_set_self pres (by
        simp only [setT_length]
        rw [hlenN]
        exact lookupT_some_lt hp)]
      exact hp.symm
    · rw [lookupT_set_ne _ fun he => hjp he.symm]
      by_cases hjsb : j = otherChild c s
      · subst hjsb
        rw [lookupT_set_self sibres (by
          simp only [setT_length]
          rw [hlenN]
          exact lookupT_some_lt hsib)]
        exact hsib.symm
      · rw [lookupT_set_ne _ fun he => hjsb he.symm,
          lookupT_set_ne _ fun he => hjG he.symm]
        by_cases hja : j = a
        · subst hja
          rw [lookupT_set_self ares (by
            rw [hlenN]
            exact lookupT_some_lt hA)]
          exact hA.symm
        · rw [lookupT_set_ne _ fun he => hja he.symm, hN,
            lookupT_set_ne _ fun he => hjG he.symm,
            lookupT_set_ne _ fun he => hjp he.symm,
            lookupT_set_ne _ fun he => hja he.symm,
            lookupT_set_ne _ fun he => hjG he.symm,
            lookupT_set_ne _ fun he => hjsb he.symm]


/-- C2: executing tryIt and then immediately undoIt on a non-join move
with a target restores the topology arena pointwise and the root, and
every node keeps its IS_GAUSSIAN_VALID flag bit.  The well-formedness
gate admits every tree-shaped configuration, including the moves onto
the own sibling, below the own sibling, and across the grandparent to
the other side. -/
theorem tryIt_undoIt_restores (st : MoveSt) (m : MoveM) (a : Nat)
    (hj : m.join = false) (ha : m.above = some a)
    (hok : relocateOkB st m.subtree a = true) :
    (∀ j, lookupT (undoIt (tryIt st m).1 (tryIt st m).2).node j =
      lookupT st.node j) ∧
    (undoIt (tryIt st m).1 (tryIt st m).2).root = st.root ∧
    (∀ j, (undoIt (tryIt st m).1 (tryIt st m).2).status.getD j 0 &&&
      IS_GAUSSIAN_VALID = st.status.getD j 0 &&& IS_GAUSSIAN_VALID) := by
  obtain ⟨sres, p, pres, c, sibres, hs, hsp, hp, hpc, hcs, hc12,
    hsib, hsibp, hsp2, hssb, hsa, hpsb, hpa, hgnone, hgsome, htarget⟩ :=
    relocateOkB_spec st m.subtree a hok
  simp only [tryIt, hj, ha, hs, hsp, hp, hpc, Bool.false_eq_true,
    if_false, undoIt]
  set st1 := relocate st m.subtree a (childIdx c m.subtree) with hst1
  set sts1 := clearAlongChain (clearStatusBits st1.status m.subtree CAN_BE_MOVED) IS_FEATURE_PASSED_VALID (ancestorChainT st1.node.length st1.node (some m.subtree)) with hsts1
  have hnr : (∀ j, lookupT (relocate ⟨st1.node, sts1, st1.root⟩ m.subtree
      (otherChild c m.subtree) (childIdx c m.subtree)).node j =
      lookupT st.node j) ∧
      (relocate ⟨st1.node, sts1, st1.root⟩ m.subtree
        (otherChild c m.subtree) (childIdx c m.subtree)).root = st.root := by
    rcases htarget with hself | ⟨hasib, ares, hA, hganone, hgasome⟩
    · have hgsome3 : ∀ gp, pres.parent = some gp →
          gp ≠ m.subtree ∧ gp ≠ p ∧ gp ≠ otherChild c m.subtree ∧
          ∃ gres gc, lookupT st.node gp = some gres ∧
            gres.children = some gc ∧ (gc.1 = p ∨ gc.2 = p) ∧
            gc.1 ≠ gc.2 ∧ gc.1 ≠ otherChild c m.subtree ∧
            gc.2 ≠ otherChild c m.subtree :=
        fun gp hgp => ⟨(hgsome gp hgp).1, (hgsome gp hgp).2.1,
          (hgsome gp hgp).2.2.1, (hgsome gp hgp).2.2.2.2⟩
      have h1 := relocate_to_sibling st m.subtree p sres pres sibres c
        hs hsp hp hpc hcs hc12 hsib hsibp hsp2 hssb hpsb hgnone hgsome3
      have hst1a : st1 = relocate st m.subtree (otherChild c m.subtree)
          (childIdx c m.subtree) := by
        rw [hst1, hself]
      have e1 : ∀ j, lookupT st1.node j = lookupT st.node j := by
        rw [hst1a]
        exact h1.1
      have er : st1.root = st.root := by
        rw [hst1a]
        exact h1.2
      have h2 := relocate_to_sibling ⟨st1.node, sts1, st1.root⟩ m.subtree p
        sres pres sibres c ((e1 m.subtree).trans hs) hsp ((e1 p).trans hp)
        hpc hcs hc12 ((e1 (otherChild c m.subtree)).trans hsib) hsibp hsp2
        hssb hpsb (fun h => er.trans (hgnone h))
        (fun gp hgp => by
          obtain ⟨b1, b2, b3, gres, gc, hgres, rest⟩ := hgsome3 gp hgp
          exact ⟨b1, b2, b3, gres, gc, (e1 gp).trans hgres, rest⟩)
      exact ⟨fun j => (h2.1 j).trans (e1 j), h2.2.trans er⟩
    · have hsba : otherChild c m.subtree ≠ a := fun he => hasib he.symm
      cases hgaq : ares.parent with
      | none =>
        exact relocate_roundtrip st m.subtree p a sres pres sibres ares c
          hs hsp hp hpc hcs hc12 hsib hsibp hA hsp2 hssb hsa hpsb hpa hsba
          hgnone hgsome hganone
          (fun gq hgq => absurd (hgaq.symm.trans hgq) (by simp)) sts1
      | some gq =>
        obtain ⟨hgq_s, hgq_p, hgq_a, gares, gac, hgares, hgacc, hgaca,
          hgac12, hgac1p, hgac2p⟩ := hgasome gq hgaq
        by_cases hqsib : gq = otherChild c m.subtree
        · have hga2 : ares.parent = some (otherChild c m.subtree) := by
            rw [hgaq, hqsib]
          have h1 : lookupT st.node gq = some sibres := by
            rw [hqsib]
            exact hsib
          have hgsb : gares = sibres := Option.some_inj.mp
            (hgares.symm.trans h1)
          have hsc : sibres.children = some gac := by
            rw [← hgsb]
            exact hgacc
          have hsc1p : gac.1 ≠ p :=
            fun he => (hgsome gq (hgac1p he)).2.2.1 hqsib
          have hsc2p : gac.2 ≠ p :=
            fun he => (hgsome gq (hgac2p he)).2.2.1 hqsib
          exact relocate_roundtrip_descend st m.subtree p a sres pres
            sibres ares c gac hs hsp hp hpc hcs hc12 hsib hsibp hA hga2
            hsc hgaca hgac12 hsc1p hsc2p hsp2 hssb hsa hpsb hpa hsba
            hgnone hgsome sts1
        · cases hgp2 : pres.parent with
          | none =>
            exact relocate_roundtrip st m.subtree p a sres pres sibres
              ares c hs hsp hp hpc hcs hc12 hsib hsibp hA hsp2 hssb hsa
              hpsb hpa hsba hgnone hgsome hganone
              (fun gq2 hgq2 => by
                have hq : gq = gq2 := Option.some_inj.mp
                  (hgaq.symm.trans hgq2)
                subst hq
                exact ⟨hgq_s, hgq_p, hqsib, hgq_a,
                  fun gp hgp => absurd (hgp2.symm.trans hgp) (by simp),
                  gares, gac, hgares, hgacc, hgaca, hgac12,
                  fun he => absurd (hgp2.symm.trans (hgac1p he)) (by simp),
                  fun he => absurd (hgp2.symm.trans (hgac2p he)) (by simp)⟩)
              sts1
          | some gp0 =>
            by_cases hGq : gp0 = gq
            · obtain ⟨hgp_s, hgp_p, hgp_sb, hgp_a, gres, gc, hgres2,
                hgcc2, hgcp2, hgc122, hgc1sb2, hgc2sb2⟩ := hgsome gp0 hgp2
              have hga2 : ares.parent = some gp0 := by
                rw [hgaq, hGq]
              have hgares2 : lookupT st.node gp0 = some gares := by
                rw [hGq]
                exact hgares
              have hge : gares = gres := Option.some_inj.mp
                (hgares2.symm.trans hgres2)
              have hgac_gc : gac = gc := by
                have h1 : gres.children = some gac := by
                  rw [← hge]
                  exact hgacc
                exact Option.some_inj.mp (h1.symm.trans hgcc2)
              have hgca2 : gc.1 = a ∨ gc.2 = a := by
                rw [← hgac_gc]
                exact hgaca
              exact relocate_roundtrip_uncle st m.subtree p a gp0 sres
                pres sibres ares gres c gc hs hsp hp hpc hcs hc12 hsib
                hsibp hA hgp2 hga2 hgres2 hgcc2 hgcp2 hgca2 hgc122 hgc1sb2
                hgc2sb2 hgp_s hgp_p hgp_sb hgp_a hsp2 hssb hsa hpsb hpa
                hsba sts1
            · exact relocate_roundtrip st m.subtree p a sres pres sibres
                ares c hs hsp hp hpc hcs hc12 hsib hsibp hA hsp2 hssb hsa
                hpsb hpa hsba hgnone hgsome hganone
                (fun gq2 hgq2 => by
                  have hq : gq = gq2 := Option.some_inj.mp
                    (hgaq.symm.trans hgq2)
                  subst hq
                  exact ⟨hgq_s, hgq_p, hqsib, hgq_a,
                    fun gp hgp => fun he => hGq
                      ((Option.some_inj.mp (hgp2.symm.trans hgp)).trans he),
                    gares, gac, hgares, hgacc, hgaca, hgac12,
                    fun he => hGq (Option.some_inj.mp
                      (hgp2.symm.trans (hgac1p he))),
                    fun he => hGq (Option.some_inj.mp
                      (hgp2.symm.trans (hgac2p he)))⟩)
                sts1
  refine ⟨hnr.1, hnr.2, ?_⟩
  intro j
  have h2s : (relocate ⟨st1.node, sts1, st1.root⟩ m.subtree
      (otherChild c m.subtree) (childIdx c m.subtree)).status = sts1 :=
    relocate_status _ _ _ _
  rw [clearAlongChain_land _ _ IS_FEATURE_PASSED_VALID IS_GAUSSIAN_VALID
      (by decide) j,
    setStatusBits_land _ _ CAN_BE_MOVED IS_GAUSSIAN_VALID (by decide) j,
    h2s, hsts1,
    clearAlongChain_land _ _ IS_FEATURE_PASSED_VALID IS_GAUSSIAN_VALID
      (by decide) j,
    clearStatusBits_land _ _ CAN_BE_MOVED IS_GAUSSIAN_VALID (by decide) j,
    hst1, relocate_status]


/-- A concrete seven-node tree for exercising a move: node 0 is the root
with children 1 and 2, node 2 has children 3 and 4, node 3 has children
5 and 6. -/
def exMoveSt : MoveSt :=
  ⟨[some ⟨none, some (1, 2)⟩, some ⟨some 0, none⟩,
    some ⟨some 0, some (3, 4)⟩, some ⟨some 2, some (5, 6)⟩,
    some ⟨some 2, none⟩, some ⟨some 3, none⟩, some ⟨some 3, none⟩],
   [2, 10, 2, 3, 0, 2, 2], some 0⟩

/-- Moving the subtree below node 1 to above node 5. -/
def exMove : MoveM := ⟨1, some 5, none, 0, false⟩

/-- A five-node tree: node 0 is the root with children 1 and 2, node 1
has children 3 and 4.  Moving node 3 above node 2 crosses the shared
grandparent 0 to the other side. -/
def exUncleSt : MoveSt :=
  ⟨[some ⟨none, some (1, 2)⟩, some ⟨some 0, some (3, 4)⟩,
    some ⟨some 0, none⟩, some ⟨some 1, none⟩, some ⟨some 1, none⟩],
   [2, 2, 3, 10, 0], some 0⟩

/-- The cross move over the grandparent: subtree 3, target 2. -/
def exUncleMove : MoveM := ⟨3, some 2, none, 0, false⟩

/-- A five-node tree: node 0 is the root with children 1 and 2, node 2
has children 3 and 4.  Moving node 1 above node 3 descends below the own
sibling 2; moving node 1 above node 2 targets the sibling itself. -/
def exDescSt : MoveSt :=
  ⟨[some ⟨none, some (1, 2)⟩, some ⟨some 0, none⟩,
    some ⟨some 0, some (3, 4)⟩, some ⟨some 2, none⟩, some ⟨some 2, none⟩],
   [2, 10, 2, 3, 0], some 0⟩

/-- The descend move below the own sibling: subtree 1, target 3. -/
def exDescMove : MoveM := ⟨1, some 3, none, 0, false⟩

/-- The move onto the own sibling: subtree 1, target 2. -/
def exSelfSibMove : MoveM := ⟨1, some 2, none, 0, false⟩

theorem tryIt_undoIt_restores_witness :
    (relocateOkB exMoveSt exMove.subtree 5 = true ∧
      ((∀ j, lookupT (undoIt (tryIt exMoveSt exMove).1
          (tryIt exMoveSt exMove).2).node j = lookupT exMoveSt.node j) ∧
        (undoIt (tryIt exMoveSt exMove).1
          (tryIt exMoveSt exMove).2).root = exMoveSt.root ∧
        (∀ j, (undoIt (tryIt exMoveSt exMove).1
            (tryIt exMoveSt exMove).2).status.getD j 0 &&&
          IS_GAUSSIAN_VALID = exMoveSt.status.getD j 0 &&&
            IS_GAUSSIAN_VALID))) ∧
    (relocateOkB exUncleSt exUncleMove.subtree 2 = true ∧
      ((∀ j, lookupT (undoIt (tryIt exUncleSt exUncleMove).1
          (tryIt exUncleSt exUncleMove).2).node j =
          lookupT exUncleSt.node j) ∧
        (undoIt (tryIt exUncleSt exUncleMove).1
          (tryIt exUncleSt exUncleMove).2).root = exUncleSt.root ∧
        (∀ j, (undoIt (tryIt exUncleSt exUncleMove).1
            (tryIt exUncleSt exUncleMove).2).status.getD j 0 &&&
          IS_GAUSSIAN_VALID = exUncleSt.status.getD j 0 &&&
            IS_GAUSSIAN_VALID))) ∧
    (relocateOkB exDescSt exDescMove.subtree 3 = true ∧
      ((∀ j, lookupT (undoIt (tryIt exDescSt exDescMove).1
          (tryIt exDescSt exDescMove).2).node j =
          lookupT exDescSt.node j) ∧
        (undoIt (tryIt exDescSt exDescMove).1
          (tryIt exDescSt exDescMove).2).root = exDescSt.root ∧
        (∀ j, (undoIt (tryIt exDescSt exDescMove).1
            (tryIt exDescSt exDescMove).2).status.getD j 0 &&&
          IS_GAUSSIAN_VALID = exDescSt.status.getD j 0 &&&
            IS_GAUSSIAN_VALID))) ∧
    (relocateOkB exDescSt exSelfSibMove.subtree 2 = true ∧
      ((∀ j, lookupT (undoIt (tryIt exDescSt exSelfSibMove).1
          (tryIt exDescSt exSelfSibMove).2).node j =
          lookupT exDescSt.node j) ∧
        (undoIt (tryIt exDescSt exSelfSibMove).1
          (tryIt exDescSt exSelfSibMove).2).root = exDescSt.root ∧
        (∀ j, (undoIt (tryIt exDescSt exSelfSibMove).1
            (tryIt exDescSt exSelfSibMove).2).status.getD j 0 &&&
          IS_GAUSSIAN_VALID = exDescSt.status.getD j 0 &&&
            IS_GAUSSIAN_VALID))) :=
  ⟨⟨by decide, tryIt_undoIt_restores exMoveSt exMove 5 rfl rfl (by decide)⟩,
   ⟨by decide,
     tryIt_undoIt_restores exUncleSt exUncleMove 2 rfl rfl (by decide)⟩,
   ⟨by decide,
     tryIt_undoIt_restores exDescSt exDescMove 3 rfl rfl (by decide)⟩,
   ⟨by decide,
     tryIt_undoIt_restores exDescSt exSelfSibMove 2 rfl rfl (by decide)⟩⟩

end Treemap





